import Mathlib

/-!
# Payment-method-token verification (`pmt`): a shallow embedding

The Go package `pmt` verifies sealed payment-method tokens.  This file embeds
the pure part of the package: the canonical length-value encoding
(`util.go`), key records and their expiration check (`keys_manager.go`), the
functional options (`option.go`) and the token verifier (`pmt.go`).

Conventions of the embedding.

* A Go `string` / `[]byte` is a list of bytes (`Fin 256`); `len` is the list
  length.
* Go machine integers are `Nat` / `Int` with an explicit reduction where the
  source converts or can overflow (`uint32 (len chunk)`, the `int64` product in
  `Key.IsValid`).
* Library calls that are not part of the package (JSON decoding, base64, X.509
  parsing, the ECDSA primitive, the clock) are the fields of a structure `Lib`.
* A Go function returning `(T, error)` returns a `Res T`; a run-time panic is a
  third outcome.
* Calls to collaborators whose occurrence matters (`GetSigningKeys`, signature
  verification) are recorded in a log that is threaded through the verifier.
-/

namespace Pmt

/-! ## Bytes and strings -/

/-- One octet. -/
abbrev Byte := Fin 256

/-- Go strings and byte slices: finite sequences of octets. -/
abbrev GoString := List Byte

/-- The bytes of an ASCII literal. -/
def ascii (s : String) : GoString :=
  s.toList.map (fun c => Fin.ofNat c.toNat)

/-- The text of a byte string, for error messages. -/
def goText (s : GoString) : String :=
  String.mk (s.map (fun b => Char.ofNat b.val))

/-! ## `util.go` -/

/-- Conversion `uint32(n)` of a non-negative Go `int`. -/
def uint32 (n : Nat) : Nat := n % 2 ^ 32

/-- Conversion `byte(v)`: the low eight bits. -/
def toByte (v : Nat) : Byte := Fin.ofNat v

/-- `binary.LittleEndian.PutUint32` into a fresh 4-byte buffer:
`b[0] = byte(v)`, `b[1] = byte(v >> 8)`, `b[2] = byte(v >> 16)`,
`b[3] = byte(v >> 24)`. -/
def putUint32 (v : Nat) : List Byte :=
  [toByte v, toByte (v / 2 ^ 8), toByte (v / 2 ^ 16), toByte (v / 2 ^ 24)]

/-- `toLengthValue(chunks ...string) []byte`: the loop appends, for each chunk,
the 4-byte buffer holding `uint32(len(chunk))` and then the chunk. -/
def toLengthValue (chunks : List GoString) : List Byte :=
  chunks.foldl (fun out chunk => (out ++ putUint32 (uint32 chunk.length)) ++ chunk) []

/-! ### Reading the encoding back (specification side) -/

/-- Value of a byte sequence read as a little-endian unsigned integer. -/
def leValue : List Byte → Nat
  | [] => 0
  | b :: bs => b.val + 256 * leValue bs

/-- Specification side of the canonical encoding, in the words of the
specification: `out` is, for each chunk in order, a 4-byte little-endian
unsigned integer equal to the byte length of the chunk, followed immediately by
the raw bytes of the chunk, and nothing else. -/
def IsLengthValueEncoding : List GoString → List Byte → Prop
  | [], out => out = []
  | c :: cs, out =>
      ∃ hdr rest, hdr.length = 4 ∧ leValue hdr = c.length ∧
        out = hdr ++ c ++ rest ∧ IsLengthValueEncoding cs rest

/-- Sequential reader of 4-byte little-endian length-delimited records.  Each
step reads a 4-byte length `n` and then `n` bytes; it fails when fewer than
four bytes, or fewer than `n` bytes, remain.  The first argument bounds the
number of records. -/
def readRecords : Nat → List Byte → Option (List GoString)
  | _, [] => some []
  | 0, _ :: _ => none
  | fuel + 1, b0 :: b1 :: b2 :: b3 :: rest =>
      let n := leValue [b0, b1, b2, b3]
      if n ≤ rest.length then
        (readRecords fuel (rest.drop n)).map (fun cs => rest.take n :: cs)
      else none
  | _ + 1, _ => none

/-- Decoder for the canonical encoding: read records until the input is
exhausted (an input of `k` bytes holds at most `k` records). -/
def decodeLengthValue (bs : List Byte) : Option (List GoString) :=
  readRecords bs.length bs


/-! ## Outcomes -/

/-- Outcome of a Go function with an `error` result: a value, a returned
error, or a run-time panic. -/
inductive Res (α : Type) where
  | ok (v : α)
  | error (msg : String)
  | panic (msg : String)
  deriving DecidableEq, Repr

/-- The call returned normally with a non-nil error. -/
def Res.isError {α : Type} : Res α → Bool
  | .error _ => true
  | _ => false

/-- The call returned normally with a value and a nil error. -/
def Res.isOk {α : Type} : Res α → Bool
  | .ok _ => true
  | _ => false

/-! ## `keys_manager.go` -/

/-- Type `ProtocolVersion string`. -/
abbrev ProtocolVersion := GoString

/-- Constant `ECv1`. -/
def ECv1 : ProtocolVersion := ascii "ECv1"

/-- Constant `ECv2`. -/
def ECv2 : ProtocolVersion := ascii "ECv2"

/-- Constant `ECv2SigningOnly`. -/
def ECv2SigningOnly : ProtocolVersion := ascii "ECv2SigningOnly"

/-- Struct `Key`: one record of the key feed. -/
structure Key where
  ProtocolVersion : ProtocolVersion
  KeyValue : GoString
  KeyExpiration : GoString
  deriving DecidableEq, Repr

/-- Digit loop of `strconv.ParseUint(s, 10, 64)` with accumulator `n`: a
character outside `0`..`9` is a syntax error, a value above `2^64 - 1` a range
error, whichever comes first. -/
def parseUintLoop : List Byte → Nat → Res Nat
  | [], n => .ok n
  | c :: cs, n =>
      if 48 ≤ c.val ∧ c.val ≤ 57 then
        if n * 10 + (c.val - 48) < 2 ^ 64 then parseUintLoop cs (n * 10 + (c.val - 48))
        else .error "value out of range"
      else .error "invalid syntax"

/-- `strconv.ParseUint(s, 10, 64)`. -/
def ParseUint (s : GoString) : Res Nat :=
  match s with
  | [] => .error "invalid syntax"
  | _ :: _ => parseUintLoop s 0

/-- `strconv.ParseInt(s, 10, 64)`: an optional sign, then `ParseUint`, then
the check against the cutoff `2^63`. -/
def ParseInt (s : GoString) : Res Int :=
  match s with
  | [] => .error "invalid syntax"
  | c :: cs =>
      let neg : Bool := decide (c = 45)
      let digits := if c = 43 ∨ c = 45 then cs else s
      match ParseUint digits with
      | .ok un =>
          if !neg && decide (2 ^ 63 ≤ un) then .error "value out of range"
          else if neg && decide (2 ^ 63 < un) then .error "value out of range"
          else .ok (if neg then -(un : Int) else (un : Int))
      | .error msg => .error msg
      | .panic msg => .panic msg

/-- Two's-complement wrap-around of an `int64` result. -/
def wrapInt64 (x : Int) : Int := (x + 2 ^ 63) % 2 ^ 64 - 2 ^ 63

/-- Constant `int64(time.Millisecond)`: nanoseconds per millisecond. -/
def millisecond : Int := 1000000

/-- Method `Key.IsValid`.  Instants are nanoseconds since the Unix epoch;
`now` is the reading of `time.Now()`.  `time.Unix(0, ns)` is the instant `ns`,
and `ns` is the `int64` product `keyExpiration * int64(time.Millisecond)`. -/
def Key.IsValid (now : Int) (k : Key) : Res Unit :=
  if k.KeyExpiration.length > 0 then
    match ParseInt k.KeyExpiration with
    | .ok keyExpiration =>
        let expr := wrapInt64 (keyExpiration * millisecond)
        if now > expr then .error "expired key" else .ok ()
    | .error msg => .error msg
    | .panic msg => .panic msg
  else .ok ()

/-- `strconv.FormatInt(n, 10)`: the decimal string of `n`. -/
def formatInt (n : Int) : GoString :=
  let digits : List Byte := (Nat.toDigits 10 n.natAbs).map (fun c => Fin.ofNat c.toNat)
  if n < 0 then (45 : Byte) :: digits else digits


/-! ## `pmt.go`: data -/

/-- Struct `IntermediateSigningKey`. -/
structure IntermediateSigningKey where
  SignedKey : GoString
  Signatures : List GoString
  deriving DecidableEq, Repr

/-- Struct `SignedMessage`: the sealed message after JSON decoding. -/
structure SignedMessage where
  ProtocolVersion : ProtocolVersion
  IntermediateSigningKey : IntermediateSigningKey
  SignedMessage : GoString
  Signature : GoString
  deriving DecidableEq, Repr

/-- Struct `ecdsa.PublicKey`: a named curve and an affine point. -/
structure ECDSAPublicKey where
  curve : String
  x : Nat
  y : Nat
  deriving DecidableEq, Repr

/-- Dynamic type of the value returned by `x509.ParsePKIXPublicKey`: an ECDSA
public key, or a key of another algorithm (RSA, Ed25519, ...). -/
inductive PKIXKey where
  | ecdsa (k : ECDSAPublicKey)
  | other (algorithm : String)
  deriving DecidableEq, Repr

/-- Library functions used by the package and supplied from outside it.  Each
fallible one yields a value or the text of its error. -/
structure Lib where
  /-- Call `json.Unmarshal(data, &SignedMessage{})`. -/
  jsonSignedMessage : List Byte → Except String SignedMessage
  /-- Call `json.Unmarshal(data, &Key{})`. -/
  jsonKey : List Byte → Except String Key
  /-- Call `base64.StdEncoding.DecodeString`. -/
  base64Decode : GoString → Except String (List Byte)
  /-- Call `x509.ParsePKIXPublicKey`. -/
  parsePKIXPublicKey : List Byte → Except String PKIXKey
  /-- Whether `signature.NewECDSAVerifierFromPublicKey("SHA256", "DER", k)`
  returns a verifier. -/
  newECDSAVerifier : ECDSAPublicKey → Bool
  /-- Whether `verifier.Verify(sig, data)` returns nil for the verifier of the
  key. -/
  ecdsaVerify : ECDSAPublicKey → List Byte → List Byte → Bool
  /-- Reading of `time.Now()`, in nanoseconds since the Unix epoch. -/
  now : Int

/-- Interface `PublicKeysManager`: the result of one call of
`GetSigningKeys`. -/
structure PublicKeysManager where
  GetSigningKeys : Except String (List Key)

/-- Struct `PaymentMethodTokenRecipient`; a nil `keysManager` is `none`. -/
structure PaymentMethodTokenRecipient where
  protocolVersion : ProtocolVersion
  senderID : GoString
  recipientID : GoString
  keysManager : Option PublicKeysManager

/-- Calls to collaborators recorded while unsealing. -/
inductive Event where
  | getSigningKeys
  | verify (key : ECDSAPublicKey) (signature : List Byte) (data : List Byte)
  deriving DecidableEq, Repr

/-! ## `option.go` -/

/-- Type `PaymentMethodTokenRecipientOption`: an update of the recipient under
construction. -/
abbrev PaymentMethodTokenRecipientOption :=
  PaymentMethodTokenRecipient → PaymentMethodTokenRecipient

/-- Option `WithProtocolVersion`. -/
def WithProtocolVersion (version : ProtocolVersion) : PaymentMethodTokenRecipientOption :=
  fun recipient => { recipient with protocolVersion := version }

/-- Option `WithSenderID`. -/
def WithSenderID (id : GoString) : PaymentMethodTokenRecipientOption :=
  fun recipient => { recipient with senderID := id }

/-- Option `WithRecipientID`. -/
def WithRecipientID (id : GoString) : PaymentMethodTokenRecipientOption :=
  fun recipient => { recipient with recipientID := id }

/-- Option `WithKeysManager`. -/
def WithKeysManager (manager : Option PublicKeysManager) : PaymentMethodTokenRecipientOption :=
  fun recipient => { recipient with keysManager := manager }

/-! ## `pmt.go`: operations -/

/-- Function `signedMessageFromJSON`: JSON-decode a sealed message. -/
def signedMessageFromJSON (lib : Lib) (data : List Byte) : Except String SignedMessage :=
  lib.jsonSignedMessage data

/-- Function `keyFromJSON` (`keys_manager.go`): JSON-decode one key record. -/
def keyFromJSON (lib : Lib) (data : List Byte) : Except String Key :=
  lib.jsonKey data

/-- Method `validate` of the recipient. -/
def PaymentMethodTokenRecipient.validate (r : PaymentMethodTokenRecipient) : Res Unit :=
  if r.protocolVersion ≠ ECv2SigningOnly then
    .error ("invalid protocol version: " ++ goText r.protocolVersion)
  else if r.keysManager.isNone then
    .error "must set keys manager"
  else if r.senderID.length = 0 then
    .error "must set sender ID"
  else if r.recipientID.length = 0 then
    .error "must set recipient ID"
  else .ok ()

/-- The zero value `&PaymentMethodTokenRecipient{}`. -/
def zeroRecipient : PaymentMethodTokenRecipient :=
  { protocolVersion := [], senderID := [], recipientID := [], keysManager := none }

/-- The recipient after the loop `for _, opt := range opts { opt(r) }`. -/
def applyOptions (opts : List PaymentMethodTokenRecipientOption) : PaymentMethodTokenRecipient :=
  opts.foldl (fun r opt => opt r) zeroRecipient

/-- Constructor `NewPaymentMethodTokenRecipient`. -/
def NewPaymentMethodTokenRecipient (opts : List PaymentMethodTokenRecipientOption) :
    Res PaymentMethodTokenRecipient :=
  let r := applyOptions opts
  match r.validate with
  | .ok () => .ok r
  | .error msg => .error msg
  | .panic msg => .panic msg

/-- Method `parsePublicKeys`.  Each record is checked with `IsValid`, its
value base64-decoded and parsed as a PKIX public key, and the result converted
with the unchecked type assertion `pub.(*ecdsa.PublicKey)`, which panics when
the dynamic type is another key type.  The first failure ends the loop. -/
def parsePublicKeys (lib : Lib) : List Key → Res (List ECDSAPublicKey)
  | [] => .ok []
  | k :: ks =>
      match k.IsValid lib.now with
      | .error msg => .error msg
      | .panic msg => .panic msg
      | .ok () =>
          match lib.base64Decode k.KeyValue with
          | .error msg => .error msg
          | .ok key =>
              match lib.parsePKIXPublicKey key with
              | .error msg => .error msg
              | .ok (.other _) =>
                  .panic "interface conversion: interface \x7b\x7d is not *ecdsa.PublicKey"
              | .ok (.ecdsa pub) =>
                  match parsePublicKeys lib ks with
                  | .ok res => .ok (pub :: res)
                  | .error msg => .error msg
                  | .panic msg => .panic msg

/-- Inner loop of `verify` for one verifier: try the signatures in order; the
first one that verifies sets `verified` and breaks. -/
def verifySignatures (lib : Lib) (k : ECDSAPublicKey) (signedBytes : List Byte) :
    List (List Byte) → Bool → List Event → Bool × List Event
  | [], verified, log => (verified, log)
  | s :: rest, verified, log =>
      if lib.ecdsaVerify k s signedBytes then
        (true, log ++ [Event.verify k s signedBytes])
      else
        verifySignatures lib k signedBytes rest verified (log ++ [Event.verify k s signedBytes])

/-- Outer loop of `verify`: a key for which no verifier can be built is
skipped (`continue`); the loop does not stop at a verified key. -/
def verifyKeys (lib : Lib) (signatures : List (List Byte)) (signedBytes : List Byte) :
    List ECDSAPublicKey → Bool → List Event → Bool × List Event
  | [], verified, log => (verified, log)
  | k :: ks, verified, log =>
      if lib.newECDSAVerifier k then
        let step := verifySignatures lib k signedBytes signatures verified log
        verifyKeys lib signatures signedBytes ks step.1 step.2
      else
        verifyKeys lib signatures signedBytes ks verified log

/-- Method `verify`. -/
def verify (lib : Lib) (signatures : List (List Byte)) (signedBytes : List Byte)
    (keys : List ECDSAPublicKey) (log : List Event) : Res Unit × List Event :=
  let out := verifyKeys lib signatures signedBytes keys false log
  if !out.1 then (.error "could not verify signature", out.2) else (.ok (), out.2)

/-- The decoding loop at the head of `verifyIntermediateSigningKey`: every
signature is base64-decoded, the first failure is returned. -/
def decodeSignatures (lib : Lib) : List GoString → Except String (List (List Byte))
  | [] => .ok []
  | s :: rest =>
      match lib.base64Decode s with
      | .error msg => .error msg
      | .ok d =>
          match decodeSignatures lib rest with
          | .error msg => .error msg
          | .ok ds => .ok (d :: ds)

/-- Method `verifyIntermediateSigningKey`.  Calling `GetSigningKeys` on a nil
keys manager panics. -/
def verifyIntermediateSigningKey (lib : Lib) (r : PaymentMethodTokenRecipient)
    (key : IntermediateSigningKey) (log : List Event) : Res Unit × List Event :=
  match decodeSignatures lib key.Signatures with
  | .error msg => (.error msg, log)
  | .ok signatures =>
      match r.keysManager with
      | none => (.panic "invalid memory address or nil pointer dereference", log)
      | some manager =>
          match manager.GetSigningKeys with
          | .error msg => (.error msg, log ++ [Event.getSigningKeys])
          | .ok keyObjects =>
              match parsePublicKeys lib keyObjects with
              | .error msg => (.error msg, log ++ [Event.getSigningKeys])
              | .panic msg => (.panic msg, log ++ [Event.getSigningKeys])
              | .ok verifyingKeys =>
                  verify lib signatures
                    (toLengthValue [r.senderID, r.protocolVersion, key.SignedKey])
                    verifyingKeys (log ++ [Event.getSigningKeys])

/-- Method `unsealECv2SigningOnly`. -/
def unsealECv2SigningOnly (lib : Lib) (r : PaymentMethodTokenRecipient)
    (msg : SignedMessage) (log : List Event) : Res (List Byte) × List Event :=
  match verifyIntermediateSigningKey lib r msg.IntermediateSigningKey log with
  | (.error e, log1) => (.error e, log1)
  | (.panic e, log1) => (.panic e, log1)
  | (.ok (), log1) =>
      match keyFromJSON lib msg.IntermediateSigningKey.SignedKey with
      | .error e => (.error e, log1)
      | .ok imkObjects =>
          match parsePublicKeys lib [imkObjects] with
          | .error e => (.error e, log1)
          | .panic e => (.panic e, log1)
          | .ok imk =>
              match lib.base64Decode msg.Signature with
              | .error e => (.error e, log1)
              | .ok sign =>
                  match verify lib [sign]
                      (toLengthValue
                        [r.senderID, r.recipientID, r.protocolVersion, msg.SignedMessage])
                      imk log1 with
                  | (.error e, log2) => (.error e, log2)
                  | (.panic e, log2) => (.panic e, log2)
                  | (.ok (), log2) => (.ok msg.SignedMessage, log2)

/-- Method `Unseal`, started with an empty log. -/
def Unseal (lib : Lib) (r : PaymentMethodTokenRecipient) (sealedMessage : List Byte) :
    Res (List Byte) × List Event :=
  match signedMessageFromJSON lib sealedMessage with
  | .error e => (.error e, [])
  | .ok m =>
      if m.ProtocolVersion = ECv2SigningOnly then unsealECv2SigningOnly lib r m []
      else (.error "unsupported protocol version", [])

/-! ## Specification-side notions -/

/-- Signature `s` is cryptographically valid for `signedBytes` under key `k`,
as the ECDSA capability of the library judges it: a SHA256/DER verifier can be
built for `k` and its `Verify` accepts `s` for `signedBytes`. -/
def validSignature (lib : Lib) (k : ECDSAPublicKey) (s signedBytes : List Byte) : Bool :=
  lib.newECDSAVerifier k && lib.ecdsaVerify k s signedBytes

/-! ## Fixtures

A small stand-in for the libraries and a few messages, used to run the model
on concrete inputs. -/

/-- Stand-in library.  JSON decoding of a sealed message yields `m`; a key
record on the wire is two bytes of key material followed by the expiration
digits; base64 text is its own decoding unless it contains `!`; key material
`[1, x]` is the P-256 key with abscissa `x`, `[2, _]` an RSA key; a signature
by key `x` over `data` is `x :: data`. -/
def demoLib (m : SignedMessage) : Lib where
  jsonSignedMessage := fun data =>
    if data.length = 0 then .error "unexpected end of JSON input" else .ok m
  jsonKey := fun data =>
    if data.length < 2 then .error "unexpected end of JSON input"
    else .ok { ProtocolVersion := ECv2SigningOnly, KeyValue := data.take 2,
               KeyExpiration := data.drop 2 }
  base64Decode := fun s =>
    if (33 : Byte) ∈ s then .error "illegal base64 data" else .ok s
  parsePKIXPublicKey := fun der =>
    match der with
    | [1, x] => .ok (.ecdsa { curve := "P-256", x := x.val, y := 0 })
    | [2, _] => .ok (.other "RSA")
    | _ => .error "x509: failed to parse public key"
  newECDSAVerifier := fun k => decide (k.curve = "P-256")
  ecdsaVerify := fun k sig data => decide (sig = toByte k.x :: data)
  now := 1793750400000000000

/-- Sender id of the fixtures. -/
def demoSender : GoString := ascii "Google"

/-- Recipient id of the fixtures. -/
def demoRecipientID : GoString := ascii "merchant:12345"

/-- Root key record without expiration. -/
def demoRootA : Key :=
  { ProtocolVersion := ECv2SigningOnly, KeyValue := [1, 10], KeyExpiration := [] }

/-- Root key record expiring in the year 2100. -/
def demoRootB : Key :=
  { ProtocolVersion := ECv2SigningOnly, KeyValue := [1, 11],
    KeyExpiration := ascii "4102444800000" }

/-- Root key record that expired one second after the epoch. -/
def demoRootExpired : Key :=
  { ProtocolVersion := ECv2SigningOnly, KeyValue := [1, 12], KeyExpiration := ascii "1000" }

/-- Root key record holding a well-formed RSA key, without expiration. -/
def demoRootRSA : Key :=
  { ProtocolVersion := ECv2SigningOnly, KeyValue := [2, 0], KeyExpiration := [] }

/-- Keys manager serving two unexpired EC root keys. -/
def demoManager : PublicKeysManager := { GetSigningKeys := .ok [demoRootA, demoRootB] }

/-- Keys manager serving an RSA record followed by an expired EC record. -/
def demoManagerRSAExpired : PublicKeysManager :=
  { GetSigningKeys := .ok [demoRootRSA, demoRootExpired] }

/-- Options of the fixture verifier for a given keys manager. -/
def demoOptions (manager : PublicKeysManager) : List PaymentMethodTokenRecipientOption :=
  [WithProtocolVersion ECv2SigningOnly, WithSenderID demoSender,
   WithRecipientID demoRecipientID, WithKeysManager (some manager)]

/-- The verifier that `demoOptions` configures. -/
def demoRecipient (manager : PublicKeysManager) : PaymentMethodTokenRecipient :=
  { protocolVersion := ECv2SigningOnly, senderID := demoSender,
    recipientID := demoRecipientID, keysManager := some manager }

/-- Wire text of the intermediate key: key material `[1, 20]`, expiring in
2100. -/
def demoSignedKey : GoString := [1, 20] ++ ascii "4102444800000"

/-- Intermediate-key envelope: one junk signature, then one by root key 11. -/
def demoEnvelope : IntermediateSigningKey :=
  { SignedKey := demoSignedKey,
    Signatures := [[0], 11 :: toLengthValue [demoSender, ECv2SigningOnly, demoSignedKey]] }

/-- A correctly sealed message with payload `payload`. -/
def demoMessage : SignedMessage :=
  { ProtocolVersion := ECv2SigningOnly,
    IntermediateSigningKey := demoEnvelope,
    SignedMessage := ascii "payload",
    Signature := 20 :: toLengthValue
      [demoSender, demoRecipientID, ECv2SigningOnly, ascii "payload"] }

/-- The sealed message with one byte of the payload changed after signing. -/
def demoTampered : SignedMessage :=
  { demoMessage with SignedMessage := ascii "pbyload" }

/-- The sealed message declaring protocol version `ECv1`. -/
def demoWrongVersion : SignedMessage :=
  { demoMessage with ProtocolVersion := ECv1 }

/-- Sealed bytes on the wire (the stand-in decoder ignores their content). -/
def demoSealed : List Byte := ascii "sealed"

/-- The root check of the trust chain succeeded for message `m`: some root
public key decoded from the records of `GetSigningKeys` and some decoded
signature of the envelope form a valid pair for the bytes
`toLengthValue(senderID, protocolVersion, signedKey)`. -/
def RootCheck (lib : Lib) (r : PaymentMethodTokenRecipient) (m : SignedMessage) : Prop :=
  ∃ manager records rootKeys signatures,
    r.keysManager = some manager ∧
    manager.GetSigningKeys = .ok records ∧
    parsePublicKeys lib records = .ok rootKeys ∧
    decodeSignatures lib m.IntermediateSigningKey.Signatures = .ok signatures ∧
    ∃ k ∈ rootKeys, ∃ s ∈ signatures,
      validSignature lib k s
        (toLengthValue [r.senderID, r.protocolVersion, m.IntermediateSigningKey.SignedKey])
        = true

/-- The message check of the trust chain succeeded for message `m`: the
decoded message signature is valid under the public key of the intermediate
key parsed from `signedKey`, for the bytes
`toLengthValue(senderID, recipientID, protocolVersion, signedMessage)`. -/
def MessageCheck (lib : Lib) (r : PaymentMethodTokenRecipient) (m : SignedMessage) : Prop :=
  ∃ imkObjects imk sign,
    keyFromJSON lib m.IntermediateSigningKey.SignedKey = .ok imkObjects ∧
    parsePublicKeys lib [imkObjects] = .ok [imk] ∧
    lib.base64Decode m.Signature = .ok sign ∧
    validSignature lib imk sign
      (toLengthValue [r.senderID, r.recipientID, r.protocolVersion, m.SignedMessage]) = true

/-- The configuration that construction accepts: the single supported protocol
version, a keys manager, a non-empty sender id and a non-empty recipient id. -/
def WellConfigured (r : PaymentMethodTokenRecipient) : Prop :=
  r.protocolVersion = ECv2SigningOnly ∧ r.keysManager ≠ none ∧
    r.senderID ≠ [] ∧ r.recipientID ≠ []

/-- The P-256 key with abscissa 10 (the key of `demoRootA`). -/
def demoKey10 : ECDSAPublicKey := { curve := "P-256", x := 10, y := 0 }

/-- The P-256 key with abscissa 11 (the key of `demoRootB`). -/
def demoKey11 : ECDSAPublicKey := { curve := "P-256", x := 11, y := 0 }

/-- The P-256 key with abscissa 20 (the intermediate key of the fixtures). -/
def demoKey20 : ECDSAPublicKey := { curve := "P-256", x := 20, y := 0 }

/-- The key record that `demoSignedKey` decodes to. -/
def demoIntermediate : Key :=
  { ProtocolVersion := ECv2SigningOnly, KeyValue := [1, 20],
    KeyExpiration := ascii "4102444800000" }

/-- A key record whose expiration is the decimal string of `-9223372036855`
milliseconds, an instant in the year 1677. -/
def demoAncient : Key :=
  { ProtocolVersion := ECv2SigningOnly, KeyValue := [1, 10],
    KeyExpiration := ascii "-9223372036855" }

/-- A chunk of exactly `2^32` bytes. -/
def hugeChunk : GoString := List.replicate (2 ^ 32) 0

/-! ## `keys_downloader.go`: the freshness lifetime -/

/-- Type `http.Header`: the values recorded under each canonical key. -/
abbrev Header := List (String × List GoString)

/-- Method `Header.Get`: the first value under `key`, or the empty string. -/
def Header.Get (h : Header) (key : String) : GoString :=
  match h.lookup key with
  | some (v :: _) => v
  | _ => []

/-- `strings.Split(s, ",")`. -/
def splitComma : GoString → List GoString
  | [] => [[]]
  | c :: cs =>
      if c = 44 then [] :: splitComma cs
      else
        match splitComma cs with
        | [] => [[c]]
        | x :: xs => (c :: x) :: xs

/-- Class `\s` of the regular expression: tab, newline, form feed, carriage
return, space. -/
def isSpace (b : Byte) : Bool :=
  decide (b = 9 ∨ b = 10 ∨ b = 12 ∨ b = 13 ∨ b = 32)

/-- Class `\d` of the regular expression. -/
def isDigit (b : Byte) : Bool :=
  decide (48 ≤ b.val ∧ b.val ≤ 57)

/-- `strings.HasPrefix(s, p)`, with the arguments in the order `p`, `s`. -/
def startsWith : GoString → GoString → Bool
  | [], _ => true
  | _ :: _, [] => false
  | p :: ps, c :: cs => decide (p = c) && startsWith ps cs

/-- The part `max-age\s*=\s*(\d+)` of `maxAgePattern` matched at the very start
of `s`: the digits captured by the group, if the match succeeds.  The
quantifiers are greedy and the classes are disjoint from the characters that
follow them, so the group is the longest run of digits. -/
def matchMaxAgeAt (s : GoString) : Option GoString :=
  if startsWith (ascii "max-age") s then
    match (s.drop 7).dropWhile isSpace with
    | [] => none
    | c :: rest =>
        if c = 61 then
          let digits := (rest.dropWhile isSpace).takeWhile isDigit
          if digits.length > 0 then some digits else none
        else none
  else none

/-- Group 1 of the first element of `maxAgePattern.FindAllStringSubmatch(arg,
-1)`, when there is a match.  The pattern is unanchored, and its leading and
trailing `\s*` do not change the group, so this is the group of the leftmost
position at which `max-age\s*=\s*(\d+)` matches. -/
def findMaxAge : GoString → Option GoString
  | [] => none
  | c :: cs =>
      match matchMaxAgeAt (c :: cs) with
      | some digits => some digits
      | none => findMaxAge cs

/-- `strconv.Atoi` on a 64-bit platform: the value and the failures of
`ParseInt(s, 10, 64)`. -/
def Atoi (s : GoString) : Res Int := ParseInt s

/-- Constant `time.Second` as an `int64` count of nanoseconds. -/
def second : Int := 1000000000

/-- The loop over the comma-separated directives in `getExpirationDuration`:
the first directive in which the pattern matches decides the result; the
product `time.Duration(durInSeconds) * time.Second` is an `int64` product. -/
def expirationOfArgs : List GoString → Int
  | [] => 0
  | arg :: rest =>
      match findMaxAge arg with
      | some digits =>
          match Atoi digits with
          | .ok durInSeconds =>
              if durInSeconds < 0 then 0 else wrapInt64 (durInSeconds * second)
          | .error _ => 0
          | .panic _ => 0
      | none => expirationOfArgs rest

/-- Function `getExpirationDuration`, in nanoseconds. -/
def getExpirationDuration (h : Header) : Int :=
  if (h.Get "Cache-Control").length ≠ 0 then
    expirationOfArgs (splitComma (h.Get "Cache-Control"))
  else 0

/-! ## `keys_downloader.go`: the downloader

The two mutexes of the struct are not part of the state: every method releases
what it locks before it returns, so in a sequential run both are free at every
call.  A goroutine started by `getCachedData` is recorded as started and run
later as one step. -/

/-- The zero `time.Time` (1 January of year 1, UTC), in nanoseconds since the
Unix epoch. -/
def zeroTime : Int := -62135596800000000000

/-- Struct `GPayKeysDownloader` without its mutexes.  Instants and durations
are nanoseconds. -/
structure GPayKeysDownloader where
  url : GoString
  cachedData : GoString
  cachedTime : Int
  cacheExpirationDuration : Int
  deriving DecidableEq, Repr

/-- The zero value `&GPayKeysDownloader{}`. -/
def zeroDownloader : GPayKeysDownloader :=
  { url := [], cachedData := [], cachedTime := zeroTime, cacheExpirationDuration := 0 }

/-- Type `KeysDownloaderOption`. -/
abbrev KeysDownloaderOption := GPayKeysDownloader → GPayKeysDownloader

/-- Option `WithEndpoint` (`option.go`). -/
def WithEndpoint (url : GoString) : KeysDownloaderOption :=
  fun downloader => { downloader with url := url }

/-- The part of `url.URL` that the package reads. -/
structure URL where
  Scheme : GoString
  deriving DecidableEq, Repr

/-- Method `validate` of the downloader; `urlParse` is `url.Parse`. -/
def GPayKeysDownloader.validate (urlParse : GoString → Except String URL)
    (d : GPayKeysDownloader) : Res Unit :=
  match urlParse d.url with
  | .error msg => .error msg
  | .ok u =>
      if u.Scheme ≠ ascii "https" then .error "url must point to a HTTPs server"
      else .ok ()

/-- The downloader after the loop `for _, opt := range opts { opt(d) }`. -/
def applyDownloaderOptions (opts : List KeysDownloaderOption) : GPayKeysDownloader :=
  opts.foldl (fun d opt => opt d) zeroDownloader

/-- Constructor `NewGPayKeysDownloader`. -/
def NewGPayKeysDownloader (urlParse : GoString → Except String URL)
    (opts : List KeysDownloaderOption) : Res GPayKeysDownloader :=
  match (applyDownloaderOptions opts).validate urlParse with
  | .ok () => .ok (applyDownloaderOptions opts)
  | .error msg => .error msg
  | .panic msg => .panic msg

/-- What the network does when the downloader issues its GET: the request
fails, reading the body fails, or a body arrives with the response header. -/
inductive FetchOutcome where
  | getFailed (err : String)
  | readFailed (err : String)
  | response (body : GoString) (header : Header)
  deriving DecidableEq, Repr

/-- Method `fetchAndCacheData` (pointer receiver): the returned pair
`(string, error)` and the receiver afterwards.  `now` is the reading of
`time.Now()`. -/
def fetchAndCacheData (d : GPayKeysDownloader) (net : FetchOutcome) (now : Int) :
    (GoString × Option String) × GPayKeysDownloader :=
  match net with
  | .getFailed err => (([], some err), d)
  | .readFailed err => (([], some err), d)
  | .response data header =>
      ((data, none),
        { d with cachedTime := now, cachedData := data,
                 cacheExpirationDuration := getExpirationDuration header })

/-- Method `hasNonExpiredCachedData`:
`!time.Now().After(d.cachedTime.Add(d.cacheExpirationDuration))`. -/
def hasNonExpiredCachedData (d : GPayKeysDownloader) (now : Int) : Bool :=
  !decide (now > d.cachedTime + d.cacheExpirationDuration)

/-- Method `shouldRefreshCachedData`:
`!time.Now().After(d.cachedTime.Add(d.cacheExpirationDuration / 2))`, with the
truncating division of Go. -/
def shouldRefreshCachedData (d : GPayKeysDownloader) (now : Int) : Bool :=
  !decide (now > d.cachedTime + d.cacheExpirationDuration.tdiv 2)

/-- Method `getCachedData`.  It has a value receiver, so it works on a copy of
the downloader; the goroutine it starts captures that copy.  The result is the
returned string and the copies captured by the goroutines started (none or
one). -/
def getCachedData (d : GPayKeysDownloader) (now : Int) :
    GoString × List GPayKeysDownloader :=
  if hasNonExpiredCachedData d now then
    if shouldRefreshCachedData d now then (d.cachedData, [d])
    else (d.cachedData, [])
  else ([], [])

/-- A downloader in use: the object that callers hold, the goroutines started
and not yet run (each with the copy it captured), and the number of GET
requests issued so far. -/
structure World where
  downloader : GPayKeysDownloader
  goroutines : List GPayKeysDownloader
  fetches : Nat
  deriving DecidableEq, Repr

/-- Method `Download` (pointer receiver) at time `now`; `net` is the answer of
the network if this call issues a GET. -/
def Download (w : World) (now : Int) (net : FetchOutcome) :
    (GoString × Option String) × World :=
  let cached := getCachedData w.downloader now
  if cached.1.length > 0 then
    ((cached.1, none), { w with goroutines := w.goroutines ++ cached.2 })
  else
    let fetched := fetchAndCacheData w.downloader net now
    (fetched.1,
      { downloader := fetched.2, goroutines := w.goroutines ++ cached.2,
        fetches := w.fetches + 1 })

/-- The body of the goroutine started by `getCachedData`, run on the copy it
captured: the copy afterwards. -/
def backgroundRefresh (copy : GPayKeysDownloader) (net : FetchOutcome) (now : Int) :
    GPayKeysDownloader :=
  (fetchAndCacheData copy net now).2

/-- One started goroutine runs to completion at time `now`: it issues a GET and
updates the copy it captured, which nothing else refers to.  The result is the
downloader in use afterwards and the captured copy afterwards. -/
def runGoroutine (w : World) (now : Int) (net : FetchOutcome) :
    World × Option GPayKeysDownloader :=
  match w.goroutines with
  | [] => (w, none)
  | copy :: rest =>
      ({ w with goroutines := rest, fetches := w.fetches + 1 },
        some (backgroundRefresh copy net now))

/-! ## Specification-side notions for the downloader -/

/-- The downloader holds no entry (it is as constructed) and the clock reads an
instant after the zero time, or its entry is fully expired at `now`. -/
def EmptyOrExpired (d : GPayKeysDownloader) (now : Int) : Prop :=
  (d.cachedTime = zeroTime ∧ d.cacheExpirationDuration = 0 ∧ zeroTime < now) ∨
    d.cachedTime + d.cacheExpirationDuration < now

/-- The endpoint parses as a URL whose scheme is `https`. -/
def HttpsEndpoint (urlParse : GoString → Except String URL) (endpoint : GoString) : Prop :=
  ∃ u, urlParse endpoint = .ok u ∧ u.Scheme = ascii "https"

/-! ## Further fixtures: the downloader, an RSA-only key feed, a distant expiration -/

/-- An instant on 2026-11-04, in nanoseconds since the epoch. -/
def demoFetchedAt : Int := 1793750400000000000

/-- One minute, in nanoseconds. -/
def minute : Int := 60 * second

/-- A downloader holding a body fetched at `demoFetchedAt` with a lifetime of
one hour. -/
def demoDownloader : GPayKeysDownloader :=
  { url := ascii "https://payments.developers.google.com/paymentmethodtoken/keys.json",
    cachedData := ascii "keys-v1", cachedTime := demoFetchedAt,
    cacheExpirationDuration := 3600 * second }

/-- The fixture downloader in use, with no goroutine started and no GET
issued. -/
def demoWorld : World := { downloader := demoDownloader, goroutines := [], fetches := 0 }

/-- A response with body `keys-v2` and the header `Cache-Control: public,
max-age=600`. -/
def demoResponse : FetchOutcome :=
  .response (ascii "keys-v2") [("Cache-Control", [ascii "public, max-age=600"])]

/-- Stand-in for `url.Parse`: the scheme is the text before `://`, and text
containing a space does not parse. -/
def demoUrlParse (raw : GoString) : Except String URL :=
  if (32 : Byte) ∈ raw then .error "invalid character in URL"
  else if startsWith (ascii "https://") raw then .ok { Scheme := ascii "https" }
  else if startsWith (ascii "http://") raw then .ok { Scheme := ascii "http" }
  else .ok { Scheme := [] }

/-- Keys manager serving a single well-formed RSA record. -/
def demoManagerRSA : PublicKeysManager := { GetSigningKeys := .ok [demoRootRSA] }

/-- A key record whose expiration is the decimal string of `9223372036855`
milliseconds, an instant in the year 2262. -/
def demoDistant : Key :=
  { ProtocolVersion := ECv2SigningOnly, KeyValue := [1, 10],
    KeyExpiration := ascii "9223372036855" }

/-! ## Theorems: the canonical encoding -/

theorem foldl_lengthValue (chunks : List GoString) (acc : List Byte) :
    chunks.foldl (fun out chunk => (out ++ putUint32 (uint32 chunk.length)) ++ chunk) acc
      = acc ++ (chunks.map (fun c => putUint32 (uint32 c.length) ++ c)).flatten := by
  induction chunks generalizing acc with
  | nil => simp
  | cons c cs ih =>
    rw [List.foldl_cons, ih]
    simp [List.append_assoc]

theorem toLengthValue_eq_join (chunks : List GoString) :
    toLengthValue chunks = (chunks.map (fun c => putUint32 (uint32 c.length) ++ c)).flatten := by
  rw [toLengthValue, foldl_lengthValue, List.nil_append]

theorem toLengthValue_nil : toLengthValue [] = [] := rfl

theorem toLengthValue_cons (c : GoString) (cs : List GoString) :
    toLengthValue (c :: cs) = putUint32 (uint32 c.length) ++ c ++ toLengthValue cs := by
  simp [toLengthValue_eq_join]

theorem toLengthValue_append (xs ys : List GoString) :
    toLengthValue (xs ++ ys) = toLengthValue xs ++ toLengthValue ys := by
  simp [toLengthValue_eq_join]

theorem putUint32_length (v : Nat) : (putUint32 v).length = 4 := rfl

theorem leValue_putUint32 (v : Nat) : leValue (putUint32 v) = v % 2 ^ 32 := by
  simp only [putUint32, leValue, toByte, Fin.ofNat, Fin.val_mk]
  omega

theorem leValue_lt_of_length_four (hdr : List Byte) (h : hdr.length = 4) :
    leValue hdr < 2 ^ 32 := by
  match hdr, h with
  | [a, b, c, d], _ =>
    simp only [leValue]
    have := a.isLt; have := b.isLt; have := c.isLt; have := d.isLt
    omega

theorem toLengthValue_length (chunks : List GoString) :
    (toLengthValue chunks).length = 4 * chunks.length + (chunks.map List.length).sum := by
  induction chunks with
  | nil => rfl
  | cons c cs ih =>
    rw [toLengthValue_cons]
    simp only [List.length_append, putUint32_length, ih, List.length_cons, List.map_cons,
      List.sum_cons]
    omega

theorem isLengthValueEncoding_of_short (chunks : List GoString)
    (h : ∀ c ∈ chunks, c.length < 2 ^ 32) :
    IsLengthValueEncoding chunks (toLengthValue chunks) := by
  induction chunks with
  | nil => rfl
  | cons c cs ih =>
    refine ⟨putUint32 (uint32 c.length), toLengthValue cs, rfl, ?_, toLengthValue_cons c cs, ?_⟩
    · rw [leValue_putUint32, uint32, Nat.mod_mod]
      exact Nat.mod_eq_of_lt (h c (List.mem_cons_self _ _))
    · exact ih (fun c' hc' => h c' (List.mem_cons_of_mem _ hc'))

theorem readRecords_toLengthValue (chunks : List GoString)
    (h : ∀ c ∈ chunks, c.length < 2 ^ 32) (fuel : Nat) (hf : chunks.length ≤ fuel) :
    readRecords fuel (toLengthValue chunks) = some chunks := by
  induction chunks generalizing fuel with
  | nil => cases fuel <;> rfl
  | cons c cs ih =>
    obtain ⟨fuel, rfl⟩ : ∃ f, fuel = f + 1 := ⟨fuel - 1, by simp at hf; omega⟩
    have hc : c.length < 2 ^ 32 := h c (List.mem_cons_self _ _)
    have hv : leValue (putUint32 (uint32 c.length)) = c.length := by
      rw [leValue_putUint32, uint32, Nat.mod_mod]; exact Nat.mod_eq_of_lt hc
    have hcs := ih (fun c' hc' => h c' (List.mem_cons_of_mem _ hc')) fuel
      (by simp at hf; omega)
    rw [toLengthValue_cons]
    simp only [putUint32, List.cons_append, List.nil_append, readRecords] at hv ⊢
    rw [hv]
    simp [hcs]

/-! ## Theorems: `verify` -/

theorem verifySignatures_fst (lib : Lib) (k : ECDSAPublicKey) (signedBytes : List Byte)
    (sigs : List (List Byte)) (verified : Bool) (log : List Event) :
    (verifySignatures lib k signedBytes sigs verified log).1
      = (verified || sigs.any (fun s => lib.ecdsaVerify k s signedBytes)) := by
  induction sigs generalizing log with
  | nil => simp [verifySignatures]
  | cons s rest ih =>
    unfold verifySignatures
    by_cases hs : lib.ecdsaVerify k s signedBytes = true
    · simp [hs]
    · simp [hs, ih]

theorem verifyKeys_fst (lib : Lib) (sigs : List (List Byte)) (signedBytes : List Byte)
    (keys : List ECDSAPublicKey) (verified : Bool) (log : List Event) :
    (verifyKeys lib sigs signedBytes keys verified log).1
      = (verified || keys.any (fun k => sigs.any (fun s => validSignature lib k s signedBytes))) := by
  induction keys generalizing verified log with
  | nil => simp [verifyKeys]
  | cons k ks ih =>
    unfold verifyKeys
    by_cases hk : lib.newECDSAVerifier k = true
    · simp [hk, ih, verifySignatures_fst, validSignature, Bool.or_assoc]
    · have hfalse : (sigs.any fun _ => false) = false := by
        induction sigs with
        | nil => rfl
        | cons _ _ ihs => simp [ihs]
      simp [hk, ih, validSignature, hfalse]

theorem verify_fst (lib : Lib) (sigs : List (List Byte)) (signedBytes : List Byte)
    (keys : List ECDSAPublicKey) (log : List Event) :
    (verify lib sigs signedBytes keys log).1
      = if keys.any (fun k => sigs.any (fun s => validSignature lib k s signedBytes))
        then .ok () else .error "could not verify signature" := by
  unfold verify
  simp only [verifyKeys_fst, Bool.false_or]
  cases keys.any (fun k => sigs.any (fun s => validSignature lib k s signedBytes)) <;> simp

theorem verify_ok_iff (lib : Lib) (sigs : List (List Byte)) (signedBytes : List Byte)
    (keys : List ECDSAPublicKey) (log : List Event) :
    (verify lib sigs signedBytes keys log).1 = .ok () ↔
      ∃ k ∈ keys, ∃ s ∈ sigs, validSignature lib k s signedBytes = true := by
  rw [verify_fst]
  by_cases h : keys.any (fun k => sigs.any (fun s => validSignature lib k s signedBytes)) = true
  · simp only [h, if_true, true_iff]
    simpa [List.any_eq_true] using h
  · simp only [h, if_false]
    constructor
    · intro h'; cases h'
    · intro h'; exact absurd (by simpa [List.any_eq_true] using h') h

/-! ## Theorems: the verifier -/

theorem verifyIntermediateSigningKey_ok (lib : Lib) (r : PaymentMethodTokenRecipient)
    (key : IntermediateSigningKey) (log : List Event)
    (h : (verifyIntermediateSigningKey lib r key log).1 = .ok ()) :
    ∃ signatures manager records keys,
      decodeSignatures lib key.Signatures = .ok signatures ∧
      r.keysManager = some manager ∧
      manager.GetSigningKeys = .ok records ∧
      parsePublicKeys lib records = .ok keys ∧
      (verify lib signatures (toLengthValue [r.senderID, r.protocolVersion, key.SignedKey])
        keys (log ++ [Event.getSigningKeys])).1 = .ok () := by
  unfold verifyIntermediateSigningKey at h
  cases hd : decodeSignatures lib key.Signatures with
  | error e => simp [hd] at h
  | ok signatures =>
    cases hm : r.keysManager with
    | none => simp [hd, hm] at h
    | some manager =>
      cases hg : manager.GetSigningKeys with
      | error e => simp [hd, hm, hg] at h
      | ok records =>
        cases hp : parsePublicKeys lib records with
        | error e => simp [hd, hm, hg, hp] at h
        | panic e => simp [hd, hm, hg, hp] at h
        | ok keys =>
          simp only [hd, hm, hg, hp] at h
          exact ⟨signatures, manager, records, keys, rfl, rfl, hg, hp, h⟩

theorem parsePublicKeys_length (lib : Lib) (records : List Key) (keys : List ECDSAPublicKey)
    (h : parsePublicKeys lib records = .ok keys) : keys.length = records.length := by
  induction records generalizing keys with
  | nil => simp [parsePublicKeys] at h; simp [← h]
  | cons k ks ih =>
    unfold parsePublicKeys at h
    split at h <;> try (simp at h)
    split at h <;> try (simp at h)
    split at h <;> try (simp at h)
    split at h <;> try (simp at h)
    rename_i res hres
    subst h
    simp [ih res hres]

theorem unsealECv2SigningOnly_ok (lib : Lib) (r : PaymentMethodTokenRecipient)
    (msg : SignedMessage) (log : List Event) (payload : List Byte)
    (h : (unsealECv2SigningOnly lib r msg log).1 = .ok payload) :
    ∃ log1 imkObjects imk sign,
      verifyIntermediateSigningKey lib r msg.IntermediateSigningKey log = (.ok (), log1) ∧
      keyFromJSON lib msg.IntermediateSigningKey.SignedKey = .ok imkObjects ∧
      parsePublicKeys lib [imkObjects] = .ok imk ∧
      lib.base64Decode msg.Signature = .ok sign ∧
      (verify lib [sign]
        (toLengthValue [r.senderID, r.recipientID, r.protocolVersion, msg.SignedMessage])
        imk log1).1 = .ok () ∧
      payload = msg.SignedMessage := by
  unfold unsealECv2SigningOnly at h
  rcases hv : verifyIntermediateSigningKey lib r msg.IntermediateSigningKey log with ⟨res, log1⟩
  rw [hv] at h
  cases res with
  | error e => simp at h
  | panic e => simp at h
  | ok u =>
    cases u
    simp only at h
    cases hj : keyFromJSON lib msg.IntermediateSigningKey.SignedKey with
    | error e => simp [hj] at h
    | ok imkObjects =>
      cases hp : parsePublicKeys lib [imkObjects] with
      | error e => simp [hj, hp] at h
      | panic e => simp [hj, hp] at h
      | ok imk =>
        cases hb : lib.base64Decode msg.Signature with
        | error e => simp [hj, hp, hb] at h
        | ok sign =>
          simp only [hj, hp, hb] at h
          rcases hw : verify lib [sign]
            (toLengthValue [r.senderID, r.recipientID, r.protocolVersion, msg.SignedMessage])
            imk log1 with ⟨res2, log2⟩
          rw [hw] at h
          cases res2 with
          | error e => simp at h
          | panic e => simp at h
          | ok u2 =>
            cases u2
            simp only [Res.ok.injEq] at h
            exact ⟨log1, imkObjects, imk, sign, rfl, rfl, hp, rfl, by rw [hw], h.symm⟩

theorem unseal_ok (lib : Lib) (r : PaymentMethodTokenRecipient) (sealedMessage : List Byte)
    (payload : List Byte) (h : (Unseal lib r sealedMessage).1 = .ok payload) :
    ∃ m, signedMessageFromJSON lib sealedMessage = .ok m ∧
      m.ProtocolVersion = ECv2SigningOnly ∧
      (unsealECv2SigningOnly lib r m []).1 = .ok payload := by
  unfold Unseal at h
  cases hj : signedMessageFromJSON lib sealedMessage with
  | error e => simp [hj] at h
  | ok m =>
    simp only [hj] at h
    by_cases hv : m.ProtocolVersion = ECv2SigningOnly
    · simp only [hv, if_true] at h
      exact ⟨m, rfl, hv, h⟩
    · simp [hv] at h

theorem parsePublicKeys_singleton (lib : Lib) (k : Key) (keys : List ECDSAPublicKey)
    (h : parsePublicKeys lib [k] = .ok keys) : ∃ pub, keys = [pub] := by
  have hl := parsePublicKeys_length lib [k] keys h
  match keys, hl with
  | [pub], _ => exact ⟨pub, rfl⟩

theorem parsePublicKeys_valid (lib : Lib) (records : List Key) (keys : List ECDSAPublicKey)
    (h : parsePublicKeys lib records = .ok keys) :
    ∀ k ∈ records, k.IsValid lib.now = .ok () := by
  induction records generalizing keys with
  | nil => simp
  | cons k ks ih =>
    unfold parsePublicKeys at h
    split at h <;> try (simp at h)
    rename_i hvalid
    split at h <;> try (simp at h)
    split at h <;> try (simp at h)
    split at h <;> try (simp at h)
    rename_i res hres
    intro k' hk'
    rcases List.mem_cons.mp hk' with rfl | hmem
    · exact hvalid
    · exact ih res hres k' hmem

theorem validate_ok_iff (r : PaymentMethodTokenRecipient) :
    r.validate = .ok () ↔ WellConfigured r := by
  unfold PaymentMethodTokenRecipient.validate WellConfigured
  by_cases h1 : r.protocolVersion = ECv2SigningOnly
  · cases h2 : r.keysManager with
    | none => simp [h1]
    | some km =>
      by_cases h3 : r.senderID = []
      · simp [h1, h3]
      · by_cases h4 : r.recipientID = []
        · simp [h1, h3, h4]
        · simp [h1, h3, h4]
  · simp [h1]

theorem validate_not_panic (r : PaymentMethodTokenRecipient) (msg : String) :
    r.validate ≠ .panic msg := by
  unfold PaymentMethodTokenRecipient.validate
  split_ifs <;> simp

theorem new_ok_wellConfigured (opts : List PaymentMethodTokenRecipientOption)
    (r : PaymentMethodTokenRecipient) (h : NewPaymentMethodTokenRecipient opts = .ok r) :
    r = applyOptions opts ∧ WellConfigured r := by
  unfold NewPaymentMethodTokenRecipient at h
  cases hv : (applyOptions opts).validate with
  | ok u =>
    simp only [hv, Res.ok.injEq] at h
    subst h
    exact ⟨rfl, (validate_ok_iff _).mp hv⟩
  | error e => simp [hv] at h
  | panic e => simp [hv] at h

/-! ## Claims -/

/-- C1. Soundness of `Unseal`.  If `Unseal` returns a payload, then the sealed
message decodes to some `m` for which (i) a root public key decoded from
`GetSigningKeys` and a decoded envelope signature form a valid pair for exactly
`toLengthValue(senderID, protocolVersion, signedKey)`, and (ii) the decoded
message signature is valid under the intermediate key parsed from `signedKey`
for exactly `toLengthValue(senderID, recipientID, protocolVersion,
signedMessage)`.  Consequently, when the intermediate-key check passes and the
outer signature is not valid for those bytes, `Unseal` returns the error
`could not verify signature`. -/
theorem unseal_sound (lib : Lib) (r : PaymentMethodTokenRecipient)
    (sealedMessage : List Byte) :
    (∀ payload, (Unseal lib r sealedMessage).1 = .ok payload →
      ∃ m, signedMessageFromJSON lib sealedMessage = .ok m ∧
        RootCheck lib r m ∧ MessageCheck lib r m) ∧
    (∀ m imkObjects imk sign,
      signedMessageFromJSON lib sealedMessage = .ok m →
      m.ProtocolVersion = ECv2SigningOnly →
      (verifyIntermediateSigningKey lib r m.IntermediateSigningKey []).1 = .ok () →
      keyFromJSON lib m.IntermediateSigningKey.SignedKey = .ok imkObjects →
      parsePublicKeys lib [imkObjects] = .ok [imk] →
      lib.base64Decode m.Signature = .ok sign →
      validSignature lib imk sign
        (toLengthValue [r.senderID, r.recipientID, r.protocolVersion, m.SignedMessage])
        = false →
      (Unseal lib r sealedMessage).1 = .error "could not verify signature") := by
  constructor
  · intro payload h
    obtain ⟨m, hj, _, hu⟩ := unseal_ok lib r sealedMessage payload h
    obtain ⟨log1, imkObjects, imk, sign, hv, hjk, hp, hb, hw, _⟩ :=
      unsealECv2SigningOnly_ok lib r m [] payload hu
    obtain ⟨signatures, manager, records, keys, hd, hm, hg, hpk, hroot⟩ :=
      verifyIntermediateSigningKey_ok lib r m.IntermediateSigningKey [] (by rw [hv])
    obtain ⟨pub, rfl⟩ := parsePublicKeys_singleton lib imkObjects imk hp
    refine ⟨m, hj, ⟨manager, records, keys, signatures, hm, hg, hpk, hd, ?_⟩,
      ⟨imkObjects, pub, sign, hjk, hp, hb, ?_⟩⟩
    · exact (verify_ok_iff _ _ _ _ _).mp hroot
    · obtain ⟨k, hk, s, hs, hvalid⟩ := (verify_ok_iff _ _ _ _ _).mp hw
      simp only [List.mem_singleton] at hk hs
      subst hk; subst hs
      exact hvalid
  · intro m imkObjects imk sign hj hver hroot hjk hp hb hbad
    unfold Unseal
    simp only [hj, hver, if_true]
    unfold unsealECv2SigningOnly
    rcases hv : verifyIntermediateSigningKey lib r m.IntermediateSigningKey [] with ⟨res, log1⟩
    rw [hv] at hroot
    simp only at hroot
    subst hroot
    simp only [hjk, hp, hb]
    have hw := verify_fst lib [sign]
      (toLengthValue [r.senderID, r.recipientID, r.protocolVersion, m.SignedMessage]) [imk] log1
    simp only [List.any_cons, List.any_nil, Bool.or_false, hbad] at hw
    rcases hw2 : verify lib [sign]
      (toLengthValue [r.senderID, r.recipientID, r.protocolVersion, m.SignedMessage])
      [imk] log1 with ⟨res2, log2⟩
    rw [hw2] at hw
    simp only at hw
    subst hw
    rfl

/-- Witness of C1: the fixture message unseals and both checks of the chain
hold for it; the tampered fixture message passes the intermediate-key check and
is rejected with `could not verify signature`. -/
theorem unseal_sound_witness :
    (∃ m, signedMessageFromJSON (demoLib demoMessage) demoSealed = .ok m ∧
      RootCheck (demoLib demoMessage) (demoRecipient demoManager) m ∧
      MessageCheck (demoLib demoMessage) (demoRecipient demoManager) m) ∧
    (Unseal (demoLib demoTampered) (demoRecipient demoManager) demoSealed).1
      = .error "could not verify signature" :=
  ⟨(unseal_sound (demoLib demoMessage) (demoRecipient demoManager) demoSealed).1
      (ascii "payload") (by decide),
   (unseal_sound (demoLib demoTampered) (demoRecipient demoManager) demoSealed).2
      demoTampered demoIntermediate demoKey20 demoTampered.Signature
      rfl (by decide) (by decide) rfl (by decide) rfl (by decide)⟩

/-- C2. `verify` succeeds exactly when some key of `keys` and some signature of
`signatures` form a valid pair for `signedBytes`; otherwise it returns
`could not verify signature`.  Hence permuting the keys or the signatures does
not change its result, and it fails when either list is empty. -/
theorem verify_iff_valid_pair (lib : Lib) (signatures signatures' : List (List Byte))
    (signedBytes : List Byte) (keys keys' : List ECDSAPublicKey) (log : List Event)
    (hk : keys.Perm keys') (hs : signatures.Perm signatures') :
    ((verify lib signatures signedBytes keys log).1 = .ok () ↔
      ∃ k ∈ keys, ∃ s ∈ signatures, validSignature lib k s signedBytes = true) ∧
    ((verify lib signatures signedBytes keys log).1 ≠ .ok () →
      (verify lib signatures signedBytes keys log).1 = .error "could not verify signature") ∧
    (verify lib signatures' signedBytes keys' log).1
      = (verify lib signatures signedBytes keys log).1 ∧
    (verify lib [] signedBytes keys log).1 = .error "could not verify signature" ∧
    (verify lib signatures signedBytes [] log).1 = .error "could not verify signature" := by
  refine ⟨verify_ok_iff _ _ _ _ _, ?_, ?_, ?_, ?_⟩
  · rw [verify_fst]
    split_ifs <;> simp
  · have hiff : (verify lib signatures' signedBytes keys' log).1 = .ok () ↔
        (verify lib signatures signedBytes keys log).1 = .ok () := by
      rw [verify_ok_iff, verify_ok_iff]
      constructor
      · rintro ⟨k, hkm, s, hsm, hv⟩
        exact ⟨k, hk.symm.subset hkm, s, hs.symm.subset hsm, hv⟩
      · rintro ⟨k, hkm, s, hsm, hv⟩
        exact ⟨k, hk.subset hkm, s, hs.subset hsm, hv⟩
    rw [verify_fst, verify_fst] at hiff ⊢
    split_ifs at hiff ⊢ <;> simp_all
  · rw [verify_fst]
    have : (keys.any fun k => ([] : List (List Byte)).any
        fun s => validSignature lib k s signedBytes) = false := by
      induction keys with
      | nil => rfl
      | cons _ _ ih => simp [ih]
    simp [this]
  · rw [verify_fst]; simp

/-- Witness of C2: two root keys and two signatures of the fixtures, in both
orders. -/
theorem verify_iff_valid_pair_witness :
    [demoKey10, demoKey11].Perm [demoKey11, demoKey10] ∧
    ([[0], [11, 7, 7]] : List (List Byte)).Perm [[11, 7, 7], [0]] ∧
    ((verify (demoLib demoMessage) [[0], [11, 7, 7]] [7, 7] [demoKey10, demoKey11] []).1
        = .ok () ↔
      ∃ k ∈ [demoKey10, demoKey11], ∃ s ∈ ([[0], [11, 7, 7]] : List (List Byte)),
        validSignature (demoLib demoMessage) k s [7, 7] = true) ∧
    ((verify (demoLib demoMessage) [[0], [11, 7, 7]] [7, 7] [demoKey10, demoKey11] []).1
        ≠ .ok () →
      (verify (demoLib demoMessage) [[0], [11, 7, 7]] [7, 7] [demoKey10, demoKey11] []).1
        = .error "could not verify signature") ∧
    (verify (demoLib demoMessage) [[11, 7, 7], [0]] [7, 7] [demoKey11, demoKey10] []).1
      = (verify (demoLib demoMessage) [[0], [11, 7, 7]] [7, 7] [demoKey10, demoKey11] []).1 ∧
    (verify (demoLib demoMessage) [] [7, 7] [demoKey10, demoKey11] []).1
      = .error "could not verify signature" ∧
    (verify (demoLib demoMessage) [[0], [11, 7, 7]] [7, 7] [] []).1
      = .error "could not verify signature" :=
  ⟨List.Perm.swap _ _ _, List.Perm.swap _ _ _,
   verify_iff_valid_pair (demoLib demoMessage) [[0], [11, 7, 7]] [[11, 7, 7], [0]] [7, 7]
    [demoKey10, demoKey11] [demoKey11, demoKey10] []
    (List.Perm.swap _ _ _) (List.Perm.swap _ _ _)⟩

/-- C3 (the code at the failing input).  The keys manager returns a
well-formed RSA record followed by an expired EC record; every signature of the
message decodes and the protocol version is the supported one.  The expired
record is rejected by `IsValid`, yet `Unseal` does not return an error: the
unchecked conversion of the RSA key panics before the expired record is
reached. -/
theorem unseal_expired_after_rsa_panics :
    (NewPaymentMethodTokenRecipient (demoOptions demoManagerRSAExpired)).isOk = true ∧
    demoRootExpired ∈ [demoRootRSA, demoRootExpired] ∧
    demoRootExpired.IsValid (demoLib demoMessage).now = .error "expired key" ∧
    (Unseal (demoLib demoMessage) (demoRecipient demoManagerRSAExpired) demoSealed).1
      = .panic "interface conversion: interface \x7b\x7d is not *ecdsa.PublicKey" ∧
    (Unseal (demoLib demoMessage) (demoRecipient demoManagerRSAExpired) demoSealed).1.isError
      = false := by
  decide

/-- Support for C3: whenever a record returned by `GetSigningKeys`, or the
intermediate key record parsed from `signedKey`, fails `IsValid`, `Unseal`
returns no payload. -/
theorem unseal_invalid_key_no_payload (lib : Lib) (r : PaymentMethodTokenRecipient)
    (sealedMessage : List Byte) (m : SignedMessage) (manager : PublicKeysManager)
    (records : List Key)
    (hj : signedMessageFromJSON lib sealedMessage = .ok m)
    (hm : r.keysManager = some manager)
    (hg : manager.GetSigningKeys = .ok records)
    (hbad : (∃ k ∈ records, k.IsValid lib.now ≠ .ok ()) ∨
      (∃ imk, keyFromJSON lib m.IntermediateSigningKey.SignedKey = .ok imk ∧
        imk.IsValid lib.now ≠ .ok ())) :
    (Unseal lib r sealedMessage).1.isOk = false := by
  cases hres : (Unseal lib r sealedMessage).1 with
  | error e => rfl
  | panic e => rfl
  | ok payload =>
    exfalso
    obtain ⟨m', hj', _, hu⟩ := unseal_ok lib r sealedMessage payload hres
    rw [hj] at hj'
    cases hj'
    obtain ⟨log1, imkObjects, imk, sign, hv, hjk, hp, _, _, _⟩ :=
      unsealECv2SigningOnly_ok lib r m [] payload hu
    obtain ⟨signatures, manager', records', keys, _, hm', hg', hpk, _⟩ :=
      verifyIntermediateSigningKey_ok lib r m.IntermediateSigningKey [] (by rw [hv])
    rw [hm] at hm'
    cases hm'
    rw [hg] at hg'
    cases hg'
    rcases hbad with ⟨k, hk, hne⟩ | ⟨imk', hjk', hne⟩
    · exact hne (parsePublicKeys_valid lib records keys hpk k hk)
    · rw [hjk] at hjk'
      cases hjk'
      exact hne (parsePublicKeys_valid lib [imkObjects] imk hp imkObjects
        (List.mem_singleton.mpr rfl))

/-- C4. For a verifier built by `NewPaymentMethodTokenRecipient` and a sealed
message that decodes to `m` with a protocol version different from the
configured one, `Unseal` returns the error `unsupported protocol version` with
an empty call log: `GetSigningKeys` was not called and no signature
verification was attempted. -/
theorem unseal_unsupported_version (lib : Lib)
    (opts : List PaymentMethodTokenRecipientOption) (r : PaymentMethodTokenRecipient)
    (sealedMessage : List Byte) (m : SignedMessage)
    (hnew : NewPaymentMethodTokenRecipient opts = .ok r)
    (hjson : signedMessageFromJSON lib sealedMessage = .ok m)
    (hver : m.ProtocolVersion ≠ r.protocolVersion) :
    Unseal lib r sealedMessage = (.error "unsupported protocol version", []) := by
  have hcfg := (new_ok_wellConfigured opts r hnew).2.1
  rw [hcfg] at hver
  unfold Unseal
  simp [hjson, hver]

/-- Witness of C4: the fixture message relabelled `ECv1` is rejected with an
empty call log, whereas unsealing the original message records a call of
`GetSigningKeys`. -/
theorem unseal_unsupported_version_witness :
    demoWrongVersion.ProtocolVersion ≠ (demoRecipient demoManager).protocolVersion ∧
    Event.getSigningKeys ∈
      (Unseal (demoLib demoMessage) (demoRecipient demoManager) demoSealed).2 ∧
    Unseal (demoLib demoWrongVersion) (demoRecipient demoManager) demoSealed
      = (.error "unsupported protocol version", []) :=
  ⟨by decide, by decide,
   unseal_unsupported_version (demoLib demoWrongVersion) (demoOptions demoManager)
    (demoRecipient demoManager) demoSealed demoWrongVersion rfl rfl (by decide)⟩

/-- C5. Whenever `Unseal` succeeds, the bytes it returns are exactly the bytes
of the `signedMessage` field of the decoded message. -/
theorem unseal_returns_signedMessage (lib : Lib) (r : PaymentMethodTokenRecipient)
    (sealedMessage payload : List Byte)
    (h : (Unseal lib r sealedMessage).1 = .ok payload) :
    ∃ m, signedMessageFromJSON lib sealedMessage = .ok m ∧ payload = m.SignedMessage := by
  obtain ⟨m, hj, _, hu⟩ := unseal_ok lib r sealedMessage payload h
  obtain ⟨_, _, _, _, _, _, _, _, _, hpay⟩ := unsealECv2SigningOnly_ok lib r m [] payload hu
  exact ⟨m, hj, hpay⟩

/-- Witness of C5: the fixture message unseals to its payload. -/
theorem unseal_returns_signedMessage_witness :
    (Unseal (demoLib demoMessage) (demoRecipient demoManager) demoSealed).1
      = .ok (ascii "payload") ∧
    ∃ m, signedMessageFromJSON (demoLib demoMessage) demoSealed = .ok m ∧
      ascii "payload" = m.SignedMessage :=
  ⟨by decide,
   unseal_returns_signedMessage (demoLib demoMessage) (demoRecipient demoManager) demoSealed
    (ascii "payload") (by decide)⟩

/-- C6 as stated fails: for a chunk of `2^32` bytes the four bytes emitted in
front of the chunk read as `0`, and no 4-byte little-endian integer equals the
length of the chunk, so the output is not the encoding that the claim
describes. -/
theorem toLengthValue_huge_chunk_header :
    hugeChunk.length = 2 ^ 32 ∧
    leValue ((toLengthValue [hugeChunk]).take 4) = 0 ∧
    ¬ IsLengthValueEncoding [hugeChunk] (toLengthValue [hugeChunk]) := by
  have hlen : hugeChunk.length = 2 ^ 32 := List.length_replicate _ _
  refine ⟨hlen, ?_, ?_⟩
  · rw [toLengthValue_cons, hlen, List.append_assoc]
    have h4 : (putUint32 (uint32 (2 ^ 32))).length = 4 := rfl
    rw [List.take_left' h4]
    decide
  · rintro ⟨hdr, rest, h4, hval, _, _⟩
    have hlt := leValue_lt_of_length_four hdr h4
    rw [hval, hlen] at hlt
    exact absurd hlt (lt_irrefl _)

/-- C6 (amended).  For every list of chunks, with no bound on their lengths,
`toLengthValue` returns the concatenation, for each chunk in order, of the four
little-endian bytes of the chunk length reduced modulo `2^32`, followed by the
chunk, and nothing else; the output has length `4 * n` plus the sum of the chunk
lengths, and the empty list encodes to the empty byte string.  When every chunk
is shorter than `2^32` bytes, each 4-byte header is the little-endian integer
equal to the byte length of its chunk. -/
theorem toLengthValue_layout (chunks : List GoString) :
    toLengthValue chunks
      = (chunks.map (fun c => putUint32 (c.length % 2 ^ 32) ++ c)).flatten ∧
    (∀ c : GoString, (putUint32 (c.length % 2 ^ 32)).length = 4 ∧
      leValue (putUint32 (c.length % 2 ^ 32)) = c.length % 2 ^ 32) ∧
    (toLengthValue chunks).length = 4 * chunks.length + (chunks.map List.length).sum ∧
    toLengthValue [] = [] ∧
    ((∀ c ∈ chunks, c.length < 2 ^ 32) →
      IsLengthValueEncoding chunks (toLengthValue chunks)) := by
  refine ⟨toLengthValue_eq_join chunks, ?_, toLengthValue_length chunks, rfl,
    isLengthValueEncoding_of_short chunks⟩
  intro c
  refine ⟨rfl, ?_⟩
  rw [leValue_putUint32, Nat.mod_mod]

/-- Witness of C6 (amended): the layout and the length formula at a list that
holds a chunk of `2^32` bytes, and the exact headers at the chunks `Google`, the
empty chunk and `ECv2SigningOnly`. -/
theorem toLengthValue_layout_witness :
    toLengthValue [ascii "ab", hugeChunk]
      = ([ascii "ab", hugeChunk].map (fun c => putUint32 (c.length % 2 ^ 32) ++ c)).flatten ∧
    (toLengthValue [ascii "ab", hugeChunk]).length
      = 4 * [ascii "ab", hugeChunk].length + ([ascii "ab", hugeChunk].map List.length).sum ∧
    (∀ c ∈ [ascii "Google", [], ECv2SigningOnly], c.length < 2 ^ 32) ∧
    (toLengthValue [ascii "Google", [], ECv2SigningOnly]).length = 4 * 3 + (6 + 0 + 15) ∧
    IsLengthValueEncoding [ascii "Google", [], ECv2SigningOnly]
      (toLengthValue [ascii "Google", [], ECv2SigningOnly]) :=
  ⟨(toLengthValue_layout [ascii "ab", hugeChunk]).1,
   (toLengthValue_layout [ascii "ab", hugeChunk]).2.2.1,
   by decide, by decide,
   (toLengthValue_layout [ascii "Google", [], ECv2SigningOnly]).2.2.2.2 (by decide)⟩

/-- C7. Round trip of the canonical encoding: for chunk lists whose chunks are
each shorter than `2^32` bytes, reading 4-byte little-endian length-delimited
records from `toLengthValue chunks` consumes the whole output and yields the
chunks in order; hence two such lists with the same encoding are equal. -/
theorem toLengthValue_roundtrip (xs ys : List GoString)
    (hx : ∀ c ∈ xs, c.length < 2 ^ 32) (hy : ∀ c ∈ ys, c.length < 2 ^ 32) :
    decodeLengthValue (toLengthValue xs) = some xs ∧
    (toLengthValue xs = toLengthValue ys → xs = ys) := by
  have hdec : ∀ cs : List GoString, (∀ c ∈ cs, c.length < 2 ^ 32) →
      decodeLengthValue (toLengthValue cs) = some cs := by
    intro cs hcs
    apply readRecords_toLengthValue cs hcs
    rw [toLengthValue_length]
    omega
  refine ⟨hdec xs hx, ?_⟩
  intro heq
  have h1 := hdec xs hx
  rw [heq, hdec ys hy] at h1
  exact (Option.some.inj h1).symm

/-- Witness of C7: the chunks `a`, `bb`, `ccc`, against the differently split
`ab`, `b`, `ccc`. -/
theorem toLengthValue_roundtrip_witness :
    decodeLengthValue (toLengthValue [ascii "a", ascii "bb", ascii "ccc"])
      = some [ascii "a", ascii "bb", ascii "ccc"] ∧
    (toLengthValue [ascii "a", ascii "bb", ascii "ccc"]
        = toLengthValue [ascii "ab", ascii "b", ascii "ccc"] →
      [ascii "a", ascii "bb", ascii "ccc"] = [ascii "ab", ascii "b", ascii "ccc"]) :=
  toLengthValue_roundtrip [ascii "a", ascii "bb", ascii "ccc"]
    [ascii "ab", ascii "b", ascii "ccc"] (by decide) (by decide)

/-- C8. `toLengthValue` maps concatenation of chunk lists to concatenation of
byte strings. -/
theorem toLengthValue_concat (xs ys : List GoString) :
    toLengthValue (xs ++ ys) = toLengthValue xs ++ toLengthValue ys :=
  toLengthValue_append xs ys

/-- C9 (the code at the failing input).  The expiration `-9223372036855` is the
decimal string of a signed 64-bit millisecond timestamp that lies before the
verification time, but its product with `1000000` leaves the `int64` range and
wraps to an instant in the year 2262, so `IsValid` returns no error. -/
theorem isValid_accepts_ancient_expiration :
    demoAncient.KeyExpiration = formatInt (-9223372036855) ∧
    ParseInt demoAncient.KeyExpiration = .ok (-9223372036855) ∧
    -(2 : Int) ^ 63 ≤ -9223372036855 ∧ (-9223372036855 : Int) < 2 ^ 63 ∧
    (-9223372036855 : Int) * millisecond < (demoLib demoMessage).now ∧
    wrapInt64 (-9223372036855 * millisecond) = 9223372036854551616 ∧
    demoAncient.IsValid (demoLib demoMessage).now = .ok () := by
  decide

/-- Support for C9: when the product of the parsed expiration with `1000000`
stays within the `int64` range, a timestamp before the verification time is
rejected as expired; an empty expiration is always accepted. -/
theorem isValid_in_range (now : Int) (k : Key) (n : Int)
    (hparse : ParseInt k.KeyExpiration = .ok n)
    (hlo : -(2 : Int) ^ 63 ≤ n * millisecond) (hhi : n * millisecond < 2 ^ 63)
    (hpast : n * millisecond < now) :
    k.IsValid now = .error "expired key" ∧
    ∀ k' : Key, k'.KeyExpiration = [] → k'.IsValid now = .ok () := by
  constructor
  · have hne : k.KeyExpiration.length > 0 := by
      cases hk : k.KeyExpiration with
      | nil => rw [hk] at hparse; simp [ParseInt] at hparse
      | cons _ _ => simp
    have hwrap : wrapInt64 (n * millisecond) = n * millisecond := by
      unfold wrapInt64
      omega
    unfold Key.IsValid
    simp only [hne, if_true, hparse, hwrap]
    simp [hpast]
  · intro k' hk'
    simp [Key.IsValid, hk']

/-- C10. `NewPaymentMethodTokenRecipient` returns the configured verifier when,
after applying the options, the protocol version is `ECv2SigningOnly`, a keys
manager is set and both ids are non-empty; in every other case it returns an
error and no verifier.  In particular an empty sender id or recipient id makes
construction fail. -/
theorem new_recipient_iff (opts : List PaymentMethodTokenRecipientOption) :
    ((∃ r, NewPaymentMethodTokenRecipient opts = .ok r) ↔
      WellConfigured (applyOptions opts)) ∧
    (WellConfigured (applyOptions opts) →
      NewPaymentMethodTokenRecipient opts = .ok (applyOptions opts)) ∧
    (¬ WellConfigured (applyOptions opts) →
      ∃ msg, NewPaymentMethodTokenRecipient opts = .error msg) ∧
    ((applyOptions opts).senderID = [] ∨ (applyOptions opts).recipientID = [] →
      ∃ msg, NewPaymentMethodTokenRecipient opts = .error msg) := by
  have hok : WellConfigured (applyOptions opts) →
      NewPaymentMethodTokenRecipient opts = .ok (applyOptions opts) := by
    intro h
    have hv := (validate_ok_iff _).mpr h
    simp [NewPaymentMethodTokenRecipient, hv]
  have herr : ¬ WellConfigured (applyOptions opts) →
      ∃ msg, NewPaymentMethodTokenRecipient opts = .error msg := by
    intro h
    cases hv : (applyOptions opts).validate with
    | ok u => exact absurd ((validate_ok_iff _).mp (by cases u; exact hv)) h
    | error e => exact ⟨e, by simp [NewPaymentMethodTokenRecipient, hv]⟩
    | panic e => exact absurd hv (validate_not_panic _ _)
  refine ⟨⟨?_, fun h => ⟨_, hok h⟩⟩, hok, herr, ?_⟩
  · rintro ⟨r, hr⟩
    obtain ⟨rfl, hcfg⟩ := new_ok_wellConfigured opts r hr
    exact hcfg
  · intro h
    apply herr
    rintro ⟨_, _, hs, hr⟩
    rcases h with h | h
    · exact hs h
    · exact hr h

/-- Witness of C10: the fixture options are accepted; the same options followed
by an empty sender id are rejected. -/
theorem new_recipient_iff_witness :
    (NewPaymentMethodTokenRecipient (demoOptions demoManager)).isOk = true ∧
    (∃ msg, NewPaymentMethodTokenRecipient (demoOptions demoManager ++ [WithSenderID []])
      = .error msg) :=
  ⟨by decide,
   (new_recipient_iff (demoOptions demoManager ++ [WithSenderID []])).2.2.2
    (Or.inl rfl)⟩

/-! ## Theorems: the downloader -/

theorem tdiv_two_le (d : Int) (h : 0 ≤ d) : d.tdiv 2 ≤ d := by
  rw [Int.tdiv_eq_ediv h (by norm_num)]
  omega

theorem getCachedData_expired (d : GPayKeysDownloader) (now : Int)
    (h : d.cachedTime + d.cacheExpirationDuration < now) :
    getCachedData d now = ([], []) := by
  simp [getCachedData, hasNonExpiredCachedData, h]

theorem getCachedData_fresh (d : GPayKeysDownloader) (now : Int)
    (hdur : 0 ≤ d.cacheExpirationDuration)
    (h : now ≤ d.cachedTime + d.cacheExpirationDuration.tdiv 2) :
    getCachedData d now = (d.cachedData, [d]) := by
  have h2 := tdiv_two_le _ hdur
  have h3 : ¬ (d.cachedTime + d.cacheExpirationDuration < now) := by omega
  have h4 : ¬ (d.cachedTime + d.cacheExpirationDuration.tdiv 2 < now) := by omega
  simp [getCachedData, hasNonExpiredCachedData, shouldRefreshCachedData, h3, h4]

theorem getCachedData_stale (d : GPayKeysDownloader) (now : Int)
    (h : d.cachedTime + d.cacheExpirationDuration.tdiv 2 < now) :
    (getCachedData d now).2 = [] := by
  unfold getCachedData
  split_ifs with h1 h2
  · simp [shouldRefreshCachedData, h] at h2
  · rfl
  · rfl

/-- Support for C11: in the fresh window every call of `Download` on a
non-empty entry returns the cached body and starts a goroutine on a copy of the
downloader. -/
theorem download_fresh_general (w : World) (now : Int) (net : FetchOutcome)
    (hbody : w.downloader.cachedData ≠ [])
    (hdur : 0 ≤ w.downloader.cacheExpirationDuration)
    (h : now ≤ w.downloader.cachedTime + w.downloader.cacheExpirationDuration.tdiv 2) :
    Download w now net
      = ((w.downloader.cachedData, none),
          { w with goroutines := w.goroutines ++ [w.downloader] }) := by
  have hlen : w.downloader.cachedData.length > 0 := List.length_pos.mpr hbody
  simp [Download, getCachedData_fresh _ _ hdur h, hlen]

/-- Support for C12: past half of the lifetime no call of `Download` starts a
goroutine. -/
theorem download_stale_general (w : World) (now : Int) (net : FetchOutcome)
    (h : w.downloader.cachedTime + w.downloader.cacheExpirationDuration.tdiv 2 < now) :
    (Download w now net).2.goroutines = w.goroutines := by
  have h2 := getCachedData_stale w.downloader now h
  by_cases hl : (getCachedData w.downloader now).1.length > 0 <;> simp [Download, hl, h2]

/-- C11 (the code at the failing input).  The entry was fetched one minute ago
with a lifetime of one hour, so the call falls in the fresh window.  `Download`
returns the cached body, but it also starts a background refresh; when that
goroutine runs, one more GET has been issued. -/
theorem download_fresh_starts_refresh :
    demoFetchedAt + minute
      ≤ demoDownloader.cachedTime + demoDownloader.cacheExpirationDuration.tdiv 2 ∧
    (Download demoWorld (demoFetchedAt + minute) demoResponse).1
      = (ascii "keys-v1", none) ∧
    (Download demoWorld (demoFetchedAt + minute) demoResponse).2.goroutines
      = [demoDownloader] ∧
    demoWorld.fetches = 0 ∧
    (runGoroutine (Download demoWorld (demoFetchedAt + minute) demoResponse).2
      (demoFetchedAt + 2 * minute) demoResponse).1.fetches = 1 := by
  decide

/-- C12 (the code at the failing input).  The entry was fetched 45 minutes ago
with a lifetime of one hour, so the call falls between half and the whole of
the lifetime.  `Download` returns the cached body without a fetch, but starts no
background refresh. -/
theorem download_stale_starts_no_refresh :
    demoDownloader.cachedTime + demoDownloader.cacheExpirationDuration.tdiv 2
      < demoFetchedAt + 45 * minute ∧
    demoFetchedAt + 45 * minute
      ≤ demoDownloader.cachedTime + demoDownloader.cacheExpirationDuration ∧
    Download demoWorld (demoFetchedAt + 45 * minute) demoResponse
      = ((ascii "keys-v1", none), demoWorld) ∧
    (Download demoWorld (demoFetchedAt + 45 * minute) demoResponse).2.goroutines = [] := by
  decide

/-- C13. When the downloader holds no entry, or its entry is fully expired at
`now`, and the fetch succeeds with body `b` and header `h`, `Download` issues
the GET itself, returns `b` with a nil error, and leaves the cache entry equal
to `b`, `now` and the lifetime derived from `h`; no goroutine is started. -/
theorem download_expired_fetches (w : World) (now : Int) (b : GoString) (h : Header)
    (hcase : EmptyOrExpired w.downloader now) :
    Download w now (.response b h)
      = ((b, none),
          { downloader :=
              { w.downloader with
                cachedData := b, cachedTime := now,
                cacheExpirationDuration := getExpirationDuration h },
            goroutines := w.goroutines,
            fetches := w.fetches + 1 }) := by
  have hexp : w.downloader.cachedTime + w.downloader.cacheExpirationDuration < now := by
    rcases hcase with ⟨h1, h2, h3⟩ | h1
    · rw [h1, h2]; simpa using h3
    · exact h1
  simp [Download, getCachedData_expired _ _ hexp, fetchAndCacheData]

/-- Witness of C13: a downloader as constructed, and the fixture entry 61
minutes after its fetch. -/
theorem download_expired_fetches_witness :
    EmptyOrExpired zeroDownloader demoFetchedAt ∧
    (Download { downloader := zeroDownloader, goroutines := [], fetches := 0 }
        demoFetchedAt demoResponse).1
      = (ascii "keys-v2", none) ∧
    EmptyOrExpired demoWorld.downloader (demoFetchedAt + 61 * minute) ∧
    (Download demoWorld (demoFetchedAt + 61 * minute) demoResponse).1
      = (ascii "keys-v2", none) ∧
    (Download demoWorld (demoFetchedAt + 61 * minute) demoResponse).2.downloader.cachedTime
      = demoFetchedAt + 61 * minute ∧
    (Download demoWorld (demoFetchedAt + 61 * minute) demoResponse).2.downloader.cacheExpirationDuration
      = 600 * second ∧
    Download demoWorld (demoFetchedAt + 61 * minute)
        (.response (ascii "keys-v2") [("Cache-Control", [ascii "public, max-age=600"])])
      = ((ascii "keys-v2", none),
          { downloader :=
              { demoWorld.downloader with
                cachedData := ascii "keys-v2", cachedTime := demoFetchedAt + 61 * minute,
                cacheExpirationDuration :=
                  getExpirationDuration [("Cache-Control", [ascii "public, max-age=600"])] },
            goroutines := demoWorld.goroutines,
            fetches := demoWorld.fetches + 1 }) :=
  ⟨Or.inl ⟨rfl, rfl, by decide⟩,
   congrArg Prod.fst
    (download_expired_fetches { downloader := zeroDownloader, goroutines := [], fetches := 0 }
      demoFetchedAt (ascii "keys-v2") [("Cache-Control", [ascii "public, max-age=600"])]
      (Or.inl ⟨rfl, rfl, by decide⟩)),
   Or.inr (by decide), by decide, by decide, by decide,
   download_expired_fetches demoWorld (demoFetchedAt + 61 * minute) (ascii "keys-v2")
    [("Cache-Control", [ascii "public, max-age=600"])] (Or.inr (by decide))⟩

/-- C14. When `Download` has to fetch (`getCachedData` returned the empty
string) and the fetch fails, in the request or while reading the body,
`Download` returns the empty string with that error and the cache entry is
what it was before the call. -/
theorem download_failed_fetch (w : World) (now : Int) (err : String)
    (hblock : (getCachedData w.downloader now).1 = []) :
    (Download w now (.getFailed err)).1 = ([], some err) ∧
    (Download w now (.getFailed err)).2.downloader = w.downloader ∧
    (Download w now (.readFailed err)).1 = ([], some err) ∧
    (Download w now (.readFailed err)).2.downloader = w.downloader := by
  simp [Download, hblock, fetchAndCacheData]

/-- Witness of C14: the fixture entry 61 minutes after its fetch, with a
failing request. -/
theorem download_failed_fetch_witness :
    (getCachedData demoWorld.downloader (demoFetchedAt + 61 * minute)).1 = [] ∧
    (Download demoWorld (demoFetchedAt + 61 * minute) (.getFailed "timeout")).1
      = ([], some "timeout") ∧
    (Download demoWorld (demoFetchedAt + 61 * minute) (.getFailed "timeout")).2.downloader
      = demoWorld.downloader ∧
    (Download demoWorld (demoFetchedAt + 61 * minute) (.readFailed "timeout")).1
      = ([], some "timeout") ∧
    (Download demoWorld (demoFetchedAt + 61 * minute) (.readFailed "timeout")).2.downloader
      = demoWorld.downloader :=
  ⟨by decide,
   download_failed_fetch demoWorld (demoFetchedAt + 61 * minute) "timeout" (by decide)⟩

/-- C15 (the code at the failing input).  A call one minute after the fetch
starts a background refresh; the goroutine completes one minute later with body
`keys-v2` and a lifetime of ten minutes.  The refresh lands in the copy that
the goroutine captured: the downloader that callers hold is unchanged, and a
call one minute later, inside the fresh window of the refresh, still returns
`keys-v1`. -/
theorem background_refresh_updates_copy :
    (Download demoWorld (demoFetchedAt + minute) demoResponse).2.goroutines
      = [demoDownloader] ∧
    (runGoroutine (Download demoWorld (demoFetchedAt + minute) demoResponse).2
        (demoFetchedAt + 2 * minute) demoResponse).2
      = some { demoDownloader with
                cachedData := ascii "keys-v2", cachedTime := demoFetchedAt + 2 * minute,
                cacheExpirationDuration := 600 * second } ∧
    (runGoroutine (Download demoWorld (demoFetchedAt + minute) demoResponse).2
        (demoFetchedAt + 2 * minute) demoResponse).1.downloader
      = demoDownloader ∧
    demoFetchedAt + 3 * minute ≤ (demoFetchedAt + 2 * minute) + (600 * second).tdiv 2 ∧
    (Download
        (runGoroutine (Download demoWorld (demoFetchedAt + minute) demoResponse).2
          (demoFetchedAt + 2 * minute) demoResponse).1
        (demoFetchedAt + 3 * minute) demoResponse).1
      = (ascii "keys-v1", none) := by
  decide

/-! ## Theorems: the freshness lifetime -/

theorem isSpace_of_isDigit (b : Byte) (h : isDigit b = true) : isSpace b = false := by
  unfold isDigit at h
  unfold isSpace
  simp only [decide_eq_true_eq] at h
  simp only [decide_eq_false_iff_not]
  rintro (h1 | h1 | h1 | h1 | h1) <;> (rw [h1] at h; revert h; decide)

theorem takeWhile_isDigit_append (ds rest : GoString) (hds : ∀ b ∈ ds, isDigit b = true)
    (hrest : ∀ b, rest.head? = some b → isDigit b = false) :
    (ds ++ rest).takeWhile isDigit = ds := by
  induction ds with
  | nil =>
    cases rest with
    | nil => rfl
    | cons r rs => simp [List.takeWhile, hrest r rfl]
  | cons d ds ih =>
    have hd : isDigit d = true := hds d (List.mem_cons_self _ _)
    simp [List.takeWhile, hd, ih (fun b hb => hds b (List.mem_cons_of_mem _ hb))]

theorem startsWith_append (p tail : GoString) : startsWith p (p ++ tail) = true := by
  induction p with
  | nil => rfl
  | cons c cs ih => simp [startsWith, ih]

theorem matchMaxAgeAt_direct (ds rest : GoString) (hne : ds ≠ [])
    (hds : ∀ b ∈ ds, isDigit b = true)
    (hrest : ∀ b, rest.head? = some b → isDigit b = false) :
    matchMaxAgeAt (ascii "max-age" ++ ((61 : Byte) :: (ds ++ rest))) = some ds := by
  obtain ⟨d, ds', rfl⟩ := List.exists_cons_of_ne_nil hne
  have hd : isSpace d = false := isSpace_of_isDigit d (hds d (List.mem_cons_self _ _))
  have htake := takeWhile_isDigit_append (d :: ds') rest hds hrest
  have hs61 : isSpace 61 = false := by decide
  have hlen : (ascii "max-age").length = 7 := by decide
  have hdrop : (ascii "max-age" ++ ((61 : Byte) :: (d :: ds' ++ rest))).drop 7
      = (61 : Byte) :: (d :: ds' ++ rest) := by
    rw [← hlen, List.drop_left]
  unfold matchMaxAgeAt
  rw [if_pos (startsWith_append _ _), hdrop]
  simp only [List.cons_append] at htake ⊢
  simp [List.dropWhile_cons, hs61, hd, htake]

theorem findMaxAge_of_match (s ds : GoString) (h : matchMaxAgeAt s = some ds) :
    findMaxAge s = some ds := by
  cases s with
  | nil =>
    have hnone : matchMaxAgeAt [] = none := by decide
    rw [hnone] at h
    cases h
  | cons c cs => rw [findMaxAge, h]

theorem findMaxAge_direct (ds rest : GoString) (hne : ds ≠ [])
    (hds : ∀ b ∈ ds, isDigit b = true)
    (hrest : ∀ b, rest.head? = some b → isDigit b = false) :
    findMaxAge (ascii "max-age=" ++ ds ++ rest) = some ds := by
  have h1 : ascii "max-age=" = ascii "max-age" ++ [(61 : Byte)] := by decide
  have h2 : ascii "max-age=" ++ ds ++ rest = ascii "max-age" ++ ((61 : Byte) :: (ds ++ rest)) := by
    rw [h1]
    simp
  rw [h2]
  exact findMaxAge_of_match _ _ (matchMaxAgeAt_direct ds rest hne hds hrest)

theorem matchMaxAgeAt_digits (s ds : GoString) (h : matchMaxAgeAt s = some ds) :
    ds ≠ [] ∧ ∀ b ∈ ds, isDigit b = true := by
  unfold matchMaxAgeAt at h
  by_cases hs : startsWith (ascii "max-age") s = true
  · rw [if_pos hs] at h
    cases hr : (s.drop 7).dropWhile isSpace with
    | nil => rw [hr] at h; cases h
    | cons c rest =>
      rw [hr] at h
      simp only at h
      by_cases hc : c = 61
      · rw [if_pos hc] at h
        by_cases hl : ((rest.dropWhile isSpace).takeWhile isDigit).length > 0
        · rw [if_pos hl] at h
          simp only [Option.some.injEq] at h
          subst h
          constructor
          · intro hnil
            rw [hnil] at hl
            exact absurd hl (by decide)
          · intro b hb
            exact List.mem_takeWhile_imp hb
        · rw [if_neg hl] at h; cases h
      · rw [if_neg hc] at h; cases h
  · rw [if_neg hs] at h; cases h

theorem findMaxAge_digits (s ds : GoString) (h : findMaxAge s = some ds) :
    ds ≠ [] ∧ ∀ b ∈ ds, isDigit b = true := by
  induction s with
  | nil => simp [findMaxAge] at h
  | cons c cs ih =>
    unfold findMaxAge at h
    cases hm : matchMaxAgeAt (c :: cs) with
    | some d =>
      simp only [hm, Option.some.injEq] at h
      subst h
      exact matchMaxAgeAt_digits _ _ hm
    | none =>
      simp only [hm] at h
      exact ih h

theorem parseInt_nonneg_of_digit (ds : GoString) (n : Int) (hne : ds ≠ [])
    (hds : ∀ b ∈ ds, isDigit b = true) (h : ParseInt ds = .ok n) : 0 ≤ n := by
  obtain ⟨d, ds', rfl⟩ := List.exists_cons_of_ne_nil hne
  have hd : isDigit d = true := hds d (List.mem_cons_self _ _)
  have h45 : d ≠ 45 := by
    intro h45; rw [h45] at hd; exact absurd hd (by decide)
  have h43 : d ≠ 43 := by
    intro h43; rw [h43] at hd; exact absurd hd (by decide)
  unfold ParseInt at h
  simp only [h45, h43, decide_False, or_self, if_false, Bool.not_false, Bool.true_and,
    Bool.false_and] at h
  split at h
  · split_ifs at h
    simp only [Res.ok.injEq] at h
    rw [← h]
    exact Int.natCast_nonneg _
  · cases h
  · cases h

theorem expirationOfArgs_skip (pre rest : List GoString)
    (hpre : ∀ a ∈ pre, findMaxAge a = none) :
    expirationOfArgs (pre ++ rest) = expirationOfArgs rest := by
  induction pre with
  | nil => rfl
  | cons a as ih =>
    simp only [List.cons_append, expirationOfArgs, hpre a (List.mem_cons_self _ _)]
    exact ih (fun b hb => hpre b (List.mem_cons_of_mem _ hb))

theorem wrapInt64_of_fits (x : Int) (hlo : -(2 : Int) ^ 63 ≤ x) (hhi : x < 2 ^ 63) :
    wrapInt64 x = x := by
  unfold wrapInt64
  omega

theorem expirationOfArgs_none (args : List GoString)
    (h : ∀ a ∈ args, findMaxAge a = none) : expirationOfArgs args = 0 := by
  have := expirationOfArgs_skip args [] h
  rw [List.append_nil] at this
  rw [this]
  rfl

theorem getExpirationDuration_first (h : Header) (pre : List GoString) (arg : GoString)
    (post : List GoString) (digits : GoString)
    (hsplit : splitComma (h.Get "Cache-Control") = pre ++ arg :: post)
    (hpre : ∀ a ∈ pre, findMaxAge a = none)
    (harg : findMaxAge arg = some digits) :
    getExpirationDuration h
      = match Atoi digits with
        | .ok durInSeconds =>
            if durInSeconds < 0 then 0 else wrapInt64 (durInSeconds * second)
        | .error _ => 0
        | .panic _ => 0 := by
  have hne : (h.Get "Cache-Control").length ≠ 0 := by
    intro hlen
    have hnil : h.Get "Cache-Control" = [] := List.length_eq_zero.mp hlen
    rw [hnil] at hsplit
    have hone : (pre ++ arg :: post).length = 1 := by rw [← hsplit]; rfl
    cases pre with
    | nil =>
      simp only [List.nil_append] at hsplit
      have harg0 : arg = [] := by
        have := List.cons.inj (hsplit.symm)
        exact this.1
      rw [harg0] at harg
      simp [findMaxAge] at harg
    | cons p ps =>
      simp at hone
  unfold getExpirationDuration
  rw [if_pos hne, hsplit, expirationOfArgs_skip pre _ hpre]
  simp only [expirationOfArgs, harg]

/-- C16 as stated fails.  For `max-age=9223372037` the number parses, but the
`int64` product with `time.Second` wraps: the lifetime returned is negative and
is not 9223372037 seconds.  For `max-age=9223372036854775808` the number does
not fit a signed 64-bit integer, `Atoi` fails and the lifetime is zero. -/
theorem getExpirationDuration_overflow :
    findMaxAge (ascii "max-age=9223372037") = some (ascii "9223372037") ∧
    Atoi (ascii "9223372037") = .ok 9223372037 ∧
    getExpirationDuration [("Cache-Control", [ascii "max-age=9223372037"])]
      = -9223372036709551616 ∧
    getExpirationDuration [("Cache-Control", [ascii "max-age=9223372037"])] < 0 ∧
    getExpirationDuration [("Cache-Control", [ascii "max-age=9223372037"])]
      ≠ 9223372037 * second ∧
    findMaxAge (ascii "max-age=9223372036854775808")
      = some (ascii "9223372036854775808") ∧
    getExpirationDuration [("Cache-Control", [ascii "max-age=9223372036854775808"])] = 0 := by
  decide

/-- C16 (amended).  The lifetime is zero when the `Cache-Control` header is
absent or empty, when no comma-separated directive contains a match of
`max-age=N`, and when the number of the first match does not parse as a signed
64-bit integer.  Otherwise, for the first directive that contains a match
(first match wins), with number `n` such that `n` seconds fit the 64-bit
nanosecond duration type, the lifetime is exactly `n` seconds and is
non-negative.  A directive text `max-age=` followed by digits carries the
number written by those digits. -/
theorem getExpirationDuration_max_age (h : Header) (pre : List GoString) (arg : GoString)
    (post : List GoString) (digits : GoString) (n : Int)
    (hsplit : splitComma (h.Get "Cache-Control") = pre ++ arg :: post)
    (hpre : ∀ a ∈ pre, findMaxAge a = none)
    (harg : findMaxAge arg = some digits)
    (hn : Atoi digits = .ok n)
    (hfit : n * second < 2 ^ 63) :
    getExpirationDuration h = n * second ∧
    0 ≤ getExpirationDuration h ∧
    (∀ h' : Header, h'.Get "Cache-Control" = [] → getExpirationDuration h' = 0) ∧
    (∀ h' : Header, (∀ a ∈ splitComma (h'.Get "Cache-Control"), findMaxAge a = none) →
      getExpirationDuration h' = 0) ∧
    (∀ (h' : Header) (pre' : List GoString) (arg' : GoString) (post' : List GoString)
        (digits' : GoString) (msg : String),
      splitComma (h'.Get "Cache-Control") = pre' ++ arg' :: post' →
      (∀ a ∈ pre', findMaxAge a = none) →
      findMaxAge arg' = some digits' →
      Atoi digits' = .error msg →
      getExpirationDuration h' = 0) ∧
    (∀ ds rest : GoString, ds ≠ [] → (∀ b ∈ ds, isDigit b = true) →
      (∀ b, rest.head? = some b → isDigit b = false) →
      findMaxAge (ascii "max-age=" ++ ds ++ rest) = some ds) := by
  have hdig := findMaxAge_digits arg digits harg
  have hn0 : 0 ≤ n := parseInt_nonneg_of_digit digits n hdig.1 hdig.2 hn
  have hsec : (0 : Int) ≤ n * second := Int.mul_nonneg hn0 (by decide)
  have hval : getExpirationDuration h = n * second := by
    rw [getExpirationDuration_first h pre arg post digits hsplit hpre harg, hn]
    simp only
    rw [if_neg (by omega), wrapInt64_of_fits _ (by omega) hfit]
  refine ⟨hval, by rw [hval]; exact hsec, ?_, ?_, ?_, findMaxAge_direct⟩
  · intro h' hget
    simp [getExpirationDuration, hget]
  · intro h' hall
    unfold getExpirationDuration
    split_ifs
    · exact expirationOfArgs_none _ hall
    · rfl
  · intro h' pre' arg' post' digits' msg hs hp ha herr
    rw [getExpirationDuration_first h' pre' arg' post' digits' hs hp ha, herr]

/-- Witness of C16 (amended): the header `Cache-Control: public, max-age=600`
yields 600 seconds. -/
theorem getExpirationDuration_max_age_witness :
    splitComma (Header.Get [("Cache-Control", [ascii "public, max-age=600"])] "Cache-Control")
      = [ascii "public"] ++ ascii " max-age=600" :: [] ∧
    findMaxAge (ascii " max-age=600") = some (ascii "600") ∧
    Atoi (ascii "600") = .ok 600 ∧
    getExpirationDuration [("Cache-Control", [ascii "public, max-age=600"])] = 600 * second ∧
    0 ≤ getExpirationDuration [("Cache-Control", [ascii "public, max-age=600"])] :=
  ⟨by decide, by decide, by decide,
   (getExpirationDuration_max_age [("Cache-Control", [ascii "public, max-age=600"])]
      [ascii "public"] (ascii " max-age=600") [] (ascii "600") 600
      (by decide) (by decide) (by decide) (by decide) (by decide)).1,
   (getExpirationDuration_max_age [("Cache-Control", [ascii "public, max-age=600"])]
      [ascii "public"] (ascii " max-age=600") [] (ascii "600") 600
      (by decide) (by decide) (by decide) (by decide) (by decide)).2.1⟩

theorem downloader_validate_ok_iff (urlParse : GoString → Except String URL)
    (d : GPayKeysDownloader) :
    d.validate urlParse = .ok () ↔ HttpsEndpoint urlParse d.url := by
  unfold GPayKeysDownloader.validate HttpsEndpoint
  cases hp : urlParse d.url with
  | error e => simp
  | ok u =>
    by_cases hs : u.Scheme = ascii "https"
    · simp [hs]
    · simp [hs]

theorem downloader_validate_not_panic (urlParse : GoString → Except String URL)
    (d : GPayKeysDownloader) (msg : String) : d.validate urlParse ≠ .panic msg := by
  unfold GPayKeysDownloader.validate
  cases urlParse d.url with
  | error e => simp
  | ok u =>
    simp only
    split_ifs <;> simp

/-- C17. `NewGPayKeysDownloader` returns the configured downloader exactly when
the configured endpoint parses as a URL whose scheme is `https`; for every
other endpoint (another scheme, an empty scheme, an endpoint that does not
parse, or none configured) it returns an error and no downloader. -/
theorem new_downloader_iff (urlParse : GoString → Except String URL)
    (opts : List KeysDownloaderOption) :
    ((∃ d, NewGPayKeysDownloader urlParse opts = .ok d) ↔
      HttpsEndpoint urlParse (applyDownloaderOptions opts).url) ∧
    (HttpsEndpoint urlParse (applyDownloaderOptions opts).url →
      NewGPayKeysDownloader urlParse opts = .ok (applyDownloaderOptions opts)) ∧
    (¬ HttpsEndpoint urlParse (applyDownloaderOptions opts).url →
      ∃ msg, NewGPayKeysDownloader urlParse opts = .error msg) ∧
    (applyDownloaderOptions []).url = [] := by
  have hok : HttpsEndpoint urlParse (applyDownloaderOptions opts).url →
      NewGPayKeysDownloader urlParse opts = .ok (applyDownloaderOptions opts) := by
    intro h
    have hv := (downloader_validate_ok_iff urlParse _).mpr h
    simp [NewGPayKeysDownloader, hv]
  have herr : ¬ HttpsEndpoint urlParse (applyDownloaderOptions opts).url →
      ∃ msg, NewGPayKeysDownloader urlParse opts = .error msg := by
    intro h
    cases hv : (applyDownloaderOptions opts).validate urlParse with
    | ok u => exact absurd ((downloader_validate_ok_iff urlParse _).mp (by cases u; exact hv)) h
    | error e => exact ⟨e, by simp [NewGPayKeysDownloader, hv]⟩
    | panic e => exact absurd hv (downloader_validate_not_panic _ _ _)
  refine ⟨⟨?_, fun h => ⟨_, hok h⟩⟩, hok, herr, rfl⟩
  rintro ⟨d, hd⟩
  by_contra hne
  obtain ⟨msg, hmsg⟩ := herr hne
  rw [hmsg] at hd
  cases hd

/-- Witness of C17: the production endpoint is accepted; the same endpoint over
`http` and an unconfigured endpoint are rejected. -/
theorem new_downloader_iff_witness :
    NewGPayKeysDownloader demoUrlParse [WithEndpoint demoDownloader.url]
      = .ok (applyDownloaderOptions [WithEndpoint demoDownloader.url]) ∧
    (∃ msg, NewGPayKeysDownloader demoUrlParse [WithEndpoint (ascii "http://example.com/keys")]
      = .error msg) ∧
    (∃ msg, NewGPayKeysDownloader demoUrlParse [] = .error msg) :=
  ⟨(new_downloader_iff demoUrlParse [WithEndpoint demoDownloader.url]).2.1
      ⟨{ Scheme := ascii "https" }, rfl, rfl⟩,
   (new_downloader_iff demoUrlParse [WithEndpoint (ascii "http://example.com/keys")]).2.2.1
      (by rintro ⟨u, hu, hs⟩; cases hu; exact absurd hs (by decide)),
   (new_downloader_iff demoUrlParse []).2.2.1
      (by rintro ⟨u, hu, hs⟩; cases hu; exact absurd hs (by decide))⟩

/-- C19 (the code at the failing input).  The record holds valid base64 of a
well-formed PKIX public key that is an RSA key.  `parsePublicKeys` neither
returns keys nor an error: the conversion to an ECDSA public key panics, and so
does `Unseal` when the keys manager serves that record. -/
theorem parsePublicKeys_rsa_panics :
    demoRootRSA.IsValid (demoLib demoMessage).now = .ok () ∧
    parsePublicKeys (demoLib demoMessage) [demoRootRSA]
      = .panic "interface conversion: interface \x7b\x7d is not *ecdsa.PublicKey" ∧
    (parsePublicKeys (demoLib demoMessage) [demoRootRSA]).isOk = false ∧
    (parsePublicKeys (demoLib demoMessage) [demoRootRSA]).isError = false ∧
    (Unseal (demoLib demoMessage) (demoRecipient demoManagerRSA) demoSealed).1
      = .panic "interface conversion: interface \x7b\x7d is not *ecdsa.PublicKey" := by
  decide

/-- C20 (the code at the failing input).  The expiration `9223372036855` is the
decimal string of a signed 64-bit millisecond timestamp that lies strictly
after the verification time (the year 2262 against 2026), but its product with
`1000000` leaves the `int64` range and wraps to an instant in the year 1677, so
`IsValid` returns `expired key`. -/
theorem isValid_rejects_distant_expiration :
    demoDistant.KeyExpiration = formatInt 9223372036855 ∧
    ParseInt demoDistant.KeyExpiration = .ok 9223372036855 ∧
    -(2 : Int) ^ 63 ≤ 9223372036855 ∧ (9223372036855 : Int) < 2 ^ 63 ∧
    (demoLib demoMessage).now < (9223372036855 : Int) * millisecond ∧
    wrapInt64 (9223372036855 * millisecond) = -9223372036854551616 ∧
    demoDistant.IsValid (demoLib demoMessage).now = .error "expired key" := by
  decide

/-- Support for C20: when the product of the parsed expiration with `1000000`
stays within the `int64` range, a timestamp strictly after the verification
time is accepted. -/
theorem isValid_future_in_range (now : Int) (k : Key) (n : Int)
    (hparse : ParseInt k.KeyExpiration = .ok n)
    (hlo : -(2 : Int) ^ 63 ≤ n * millisecond) (hhi : n * millisecond < 2 ^ 63)
    (hfuture : now < n * millisecond) :
    k.IsValid now = .ok () := by
  have hwrap := wrapInt64_of_fits _ hlo hhi
  have hnot : ¬ (n * millisecond < now) := by omega
  unfold Key.IsValid
  split_ifs
  · simp [hparse, hwrap, hnot]
  · rfl

end Pmt
